import Mathlib

/-!
# The Machine and MachineGroup API types and their JSON wire form

The repository declares six Go structs (`client/apis/machine/v1/types.go`,
`client/apis/machinegroup/v1alpha1/types.go`) together with their `json` struct tags and
code-generation markers. This development embeds

* the declarations themselves, as data (`Decl.*`): Go field name, Go type, tag name,
  tag options, `+optional` marker, and the `+kubebuilder:printcolumn` markers;
* the values of the declared types (`MachineSpec`, `MachineStatus`, `Machine`, ...);
* the wire form that Go's `encoding/json` derives from those tags.

The rules of `encoding/json` that the wire form rests on:

* an embedded struct whose tag gives no name is inlined, its fields being promoted one
  level down; among the fields that share a JSON name the least nested one is kept, and
  if several tie (here: the two fields of `MachineSpec` tagged `source`) all of them are
  ignored, by `Marshal` and by `Unmarshal` alike (`typeFields`);
* `Marshal` writes the visible fields in declaration order and leaves out a field with
  `omitempty` whose value is a nil pointer, a nil or empty map or slice, `false` or an
  empty string; a struct is never left out (`marshalStruct`);
* a Go string is a sequence of bytes: `Marshal` writes it as text, with U+FFFD in place
  of every byte that is not part of valid UTF-8, and `Unmarshal` stores the UTF-8
  encoding of a text (`GoString.toText`, `GoString.ofText`); the entries of a map are
  written in the byte order of their keys;
* `Unmarshal` stores the members of an object one after the other, a key being matched to
  a field name exactly or else case-insensitively; `null` sets a pointer, map or slice to
  nil and leaves anything else alone; a value of the wrong JSON kind is recorded as a type
  error and skipped, while an error returned by an `UnmarshalJSON` method stops the
  decoding (`unmarshalStruct`, `DecodeErr`).

The types of `k8s.io/apimachinery/pkg/apis/meta/v1` that the declarations use (`TypeMeta`,
`ObjectMeta`, `ListMeta`, `Time`) are not declared in the repository; they are a
parameter (`MetaV1`).
-/

namespace K8sCrd

/-! ## Declarations -/

/-- Go types occurring in the declarations. -/
inductive GoType where
  | string
  | bool
  | named (pkg : String) (name : String)
  | ptr (elem : GoType)
  | mapOf (key : GoType) (val : GoType)
  | slice (elem : GoType)
  deriving DecidableEq, Repr

/-- One field of a struct declaration, with its `json` tag split at the commas
(`jsonName` is the part before the first comma, `jsonOpts` the options after it) and
whether the comment block above it carries a `+optional` marker. -/
structure Field where
  goName : String
  goType : GoType
  embedded : Bool
  jsonName : String
  jsonOpts : List String
  optionalMarker : Bool
  deriving DecidableEq, Repr

/-- The tag option `omitempty`. -/
def Field.omitempty (f : Field) : Bool :=
  f.jsonOpts.contains "omitempty"

/-- A `+kubebuilder:printcolumn` marker; `jsonPath` holds the segments of the JSONPath
between the dots. -/
structure PrintColumn where
  name : String
  colType : String
  jsonPath : List String
  deriving DecidableEq, Repr

/-- A struct declaration. -/
structure StructDecl where
  name : String
  fields : List Field
  printColumns : List PrintColumn
  deriving DecidableEq, Repr

namespace Decl

def tTypeMeta : GoType := .named "metav1" "TypeMeta"

def tObjectMeta : GoType := .named "metav1" "ObjectMeta"

def tListMeta : GoType := .named "metav1" "ListMeta"

def tTime : GoType := .named "metav1" "Time"

/-- Declaration `type MachineSpec struct` (machine/v1/types.go, lines 70-81). -/
def MachineSpec : StructDecl where
  name := "MachineSpec"
  fields := [
    ⟨"Name", .ptr .string, false, "source", [], false⟩,
    ⟨"Arch", .ptr .string, false, "source", [], false⟩ ]
  printColumns := []

/-- Declaration `type MachineStatus struct` (machine/v1/types.go, lines 93-115). -/
def MachineStatus : StructDecl where
  name := "MachineStatus"
  fields := [
    ⟨"UpdateTime", .ptr tTime, false, "creationTime", ["omitempty"], true⟩,
    ⟨"ReadyToUse", .ptr .bool, false, "readyToUse", ["omitempty"], true⟩ ]
  printColumns := []

/-- Declaration `type Machine struct` with its printcolumn markers
(machine/v1/types.go, lines 33-56). -/
def Machine : StructDecl where
  name := "Machine"
  fields := [
    ⟨"TypeMeta", tTypeMeta, true, "", ["inline"], false⟩,
    ⟨"ObjectMeta", tObjectMeta, true, "metadata", ["omitempty"], true⟩,
    ⟨"Spec", .named "" "MachineSpec", false, "spec", [], false⟩,
    ⟨"Status", .ptr (.named "" "MachineStatus"), false, "status", ["omitempty"], true⟩ ]
  printColumns := [
    ⟨"Name", "boolean", ["spec", "Name"]⟩,
    ⟨"Arch", "string", ["spec", "Arch"]⟩,
    ⟨"UpdateTime", "date", ["status", "UpdateTime"]⟩,
    ⟨"Age", "date", ["metadata", "creationTimestamp"]⟩ ]

/-- Declaration `type MachineList struct` (machine/v1/types.go, lines 60-67). -/
def MachineList : StructDecl where
  name := "MachineList"
  fields := [
    ⟨"TypeMeta", tTypeMeta, true, "", ["inline"], false⟩,
    ⟨"ListMeta", tListMeta, true, "metadata", ["omitempty"], true⟩,
    ⟨"Items", .slice (.named "" "Machine"), false, "items", [], false⟩ ]
  printColumns := []

/-- Declaration `type MachineGroup struct` (machinegroup/v1alpha1/types.go, lines 33-49). -/
def MachineGroup : StructDecl where
  name := "MachineGroup"
  fields := [
    ⟨"TypeMeta", tTypeMeta, true, "", ["inline"], false⟩,
    ⟨"ObjectMeta", tObjectMeta, true, "metadata", ["omitempty"], true⟩,
    ⟨"Name", .string, false, "driver", [], false⟩,
    ⟨"Parameters", .mapOf .string .string, false, "parameters", ["omitempty"], true⟩ ]
  printColumns := []

/-- Declaration `type MachineGroupList struct`
(machinegroup/v1alpha1/types.go, lines 55-64). -/
def MachineGroupList : StructDecl where
  name := "MachineGroupList"
  fields := [
    ⟨"TypeMeta", tTypeMeta, true, "", ["inline"], false⟩,
    ⟨"ListMeta", tListMeta, true, "metadata", ["omitempty"], true⟩,
    ⟨"Items", .slice (.named "" "MachineGroup"), false, "items", [], false⟩ ]
  printColumns := []

/-- Every struct the repository declares. -/
def all : List StructDecl :=
  [Machine, MachineList, MachineSpec, MachineStatus, MachineGroup, MachineGroupList]

end Decl

/-- The field of a declaration with the given Go name. -/
def StructDecl.field? (d : StructDecl) (goName : String) : Option Field :=
  d.fields.find? (fun f => f.goName == goName)

/-- A field is declared optional when it carries a `+optional` marker or the tag option
`omitempty`, and required otherwise. -/
def Field.declaredOptional (f : Field) : Bool :=
  f.optionalMarker || f.omitempty

/-- Whether the field with the given Go name is declared optional (`none`: no such field). -/
def StructDecl.optional? (d : StructDecl) (goName : String) : Option Bool :=
  (d.field? goName).map Field.declaredOptional

/-- The wire keys written in the tags of the fields directly declared in a struct (a field
whose tag gives no name, such as the inlined `TypeMeta`, contributes none). -/
def StructDecl.wireKeys (d : StructDecl) : List String :=
  (d.fields.filter (fun f => f.jsonName != "")).map Field.jsonName

/-- Schema-consistency check: the wire keys of the directly declared fields are pairwise
distinct. -/
def StructDecl.wireKeysDistinct (d : StructDecl) : Bool :=
  decide d.wireKeys.Nodup

/-- The struct declaration a Go type refers to, through at most one pointer. `ext` lists
the declarations of the imported structs. -/
def structOf (ext : List StructDecl) : GoType → Option StructDecl
  | .named "" n => Decl.all.find? (fun d => d.name == n)
  | .named _ n => ext.find? (fun d => d.name == n)
  | .ptr (.named "" n) => Decl.all.find? (fun d => d.name == n)
  | .ptr (.named _ n) => ext.find? (fun d => d.name == n)
  | _ => none

/-- Follows a JSONPath from a value of type `t`: every segment has to be the wire key
written in the tag of a field of the struct reached so far. Returns the type of the
field reached. -/
def fieldAt (ext : List StructDecl) : GoType → List String → Option GoType
  | t, [] => some t
  | t, seg :: rest =>
    match structOf ext t with
    | none => none
    | some d =>
      match d.fields.find? (fun f => f.jsonName == seg) with
      | none => none
      | some f => fieldAt ext f.goType rest

/-- Whether a printer-column type agrees with a Go type (through at most one pointer). -/
def columnTypeAgrees (colType : String) : GoType → Bool
  | .string => colType == "string"
  | .bool => colType == "boolean"
  | .named "metav1" "Time" => colType == "date"
  | .ptr .string => colType == "string"
  | .ptr .bool => colType == "boolean"
  | .ptr (.named "metav1" "Time") => colType == "date"
  | _ => false

/-- A printer column of `Machine` is well-formed when its JSONPath addresses a field of
the wire form and the column type agrees with that field. -/
def columnOK (ext : List StructDecl) (c : PrintColumn) : Bool :=
  match fieldAt ext (.named "" "Machine") c.jsonPath with
  | some t => columnTypeAgrees c.colType t
  | none => false


/-! ## JSON values and decoding outcomes -/

/-- JSON values. An object keeps its members in textual order, duplicates included; a
number keeps its literal text. -/
inductive Json where
  | null
  | bool (b : Bool)
  | num (lit : String)
  | str (s : String)
  | arr (elems : List Json)
  | obj (members : List (String × Json))

/-- How a call of `json.Unmarshal` ends: without error, with a saved
`UnmarshalTypeError` (decoding went on, the offending value was skipped), or with the
error returned by an `UnmarshalJSON` method (decoding stopped there). -/
inductive DecodeErr where
  | ok
  | typeErr
  | abort
  deriving DecidableEq, Repr

/-- The error after two decoding steps in sequence: an abort prevails, otherwise the
first saved error is kept. -/
def seqErr : DecodeErr → DecodeErr → DecodeErr
  | .abort, _ => .abort
  | _, .abort => .abort
  | .typeErr, _ => .typeErr
  | .ok, e => e

/-- Result of decoding into a value: the value as it stands afterwards (also after an
error) and the error kind. -/
structure Dec (α : Type) where
  val : α
  err : DecodeErr

/-- Applies a function to the decoded value. -/
def Dec.map {α β : Type} (f : α → β) (r : Dec α) : Dec β :=
  ⟨f r.val, r.err⟩

/-- What `Marshal` needs of a field value: whether `omitempty` counts it as empty, and
its encoding. -/
structure Encoded where
  empty : Bool
  json : Json

/-! ## Field resolution of `encoding/json` -/

/-- Where a wire field lives: a field of the struct itself, or a field promoted from the
inlined embedded struct, addressed by its wire key there. -/
inductive FieldRef where
  | own (goName : String)
  | promoted (key : String)
  deriving DecidableEq, Repr

/-- A candidate wire field: its JSON name, its embedding depth, whether the name comes
from a tag, its `omitempty` option and the field it refers to. -/
structure Cand where
  name : String
  depth : Nat
  tagged : Bool
  omitempty : Bool
  ref : FieldRef
  deriving DecidableEq, Repr

/-- The candidates of one declared field. An embedded field whose tag gives no name is
inlined: the wire names `inl` of its own fields become candidates one level deeper.
Any other field is a candidate under its tag name (or its Go name when the tag gives
none). -/
def fieldCands (inl : List String) (f : Field) : List Cand :=
  if f.embedded && f.jsonName == "" then
    inl.map (fun k => ⟨k, 1, true, false, .promoted k⟩)
  else
    [⟨if f.jsonName != "" then f.jsonName else f.goName, 0, f.jsonName != "", f.omitempty,
      .own f.goName⟩]

/-- All candidates of a struct, in declaration order. -/
def candidates (inl : List String) (fields : List Field) : List Cand :=
  fields.flatMap (fieldCands inl)

/-- Candidate `c` wins over `d`: it is less deeply nested, or equally nested and the only
one of the two named by a tag. -/
def beats (c d : Cand) : Bool :=
  c.depth < d.depth || (c.depth == d.depth && c.tagged && !d.tagged)

/-- Go's visibility rule for struct fields in JSON: among the candidates sharing a name,
one is kept only if it wins over all the others; if several tie, all are ignored. -/
def dominant (cs : List Cand) (c : Cand) : Bool :=
  (cs.filter (fun d => d.name == c.name && !beats c d)).length == 1

/-- The wire fields of a struct: the candidates that survive the visibility rule. -/
def typeFields (inl : List String) (fields : List Field) : List Cand :=
  (candidates inl fields).filter (dominant (candidates inl fields))

/-- Case folding of one character of an object key (exact for the ASCII letters, the
long s U+017F and the Kelvin sign U+212A, which are all that can fold onto an ASCII field name). -/
def foldChar (c : Char) : Char :=
  if c.toNat = 0x17F then 's' else if c.toNat = 0x212A then 'k' else c.toLower

/-- Case-insensitive comparison of a field name with an object key. -/
def equalFold (a b : String) : Bool :=
  a.data.map foldChar == b.data.map foldChar

/-- The wire field an object key is stored to: the one with exactly that name, else the
first one whose name matches case-insensitively. -/
def findField (tf : List Cand) (key : String) : Option FieldRef :=
  match tf.find? (fun c => c.name == key) with
  | some c => some c.ref
  | none => (tf.find? (fun c => equalFold c.name key)).map Cand.ref

/-- The member `Marshal` writes for one wire field, if any: a field with `omitempty`
whose value is empty is left out. `get` encodes the struct's own fields by Go name,
`getInl` the promoted fields by wire key (`none`: left out). -/
def emitField (get : String → Encoded) (getInl : String → Option Json) (c : Cand) :
    Option (String × Json) :=
  match c.ref with
  | .promoted k => (getInl k).map (fun j => (c.name, j))
  | .own n => if c.omitempty && (get n).empty then none else some (c.name, (get n).json)

/-- The object `Marshal` writes for a struct: the members of its wire fields, in field
order. -/
def marshalStruct (inl : List String) (d : StructDecl) (get : String → Encoded)
    (getInl : String → Option Json) : Json :=
  .obj ((typeFields inl d.fields).filterMap (emitField get getInl))

/-- One member of a JSON object decoded into a struct: nothing happens after an abort or
for a key that matches no wire field; otherwise the value is stored by `store`. -/
def unmarshalMember {σ : Type} (tf : List Cand) (store : FieldRef → Json → σ → Dec σ)
    (acc : Dec σ) (kv : String × Json) : Dec σ :=
  match acc.err with
  | .abort => acc
  | e =>
    match findField tf kv.1 with
    | none => acc
    | some r => ⟨(store r kv.2 acc.val).val, seqErr e (store r kv.2 acc.val).err⟩

/-- The members of a JSON object decoded into a struct, one after the other. -/
def unmarshalStruct {σ : Type} (inl : List String) (d : StructDecl)
    (store : FieldRef → Json → σ → Dec σ) (members : List (String × Json)) (into : σ) : Dec σ :=
  members.foldl (unmarshalMember (typeFields inl d.fields) store) ⟨into, .ok⟩

/-- A JSON value decoded into a struct: an object is decoded member by member, `null`
leaves the struct as it is, anything else is a type error. -/
def intoStruct {σ : Type} (members : List (String × Json) → σ → Dec σ) (j : Json) (into : σ) :
    Dec σ :=
  match j with
  | .obj ms => members ms into
  | .null => ⟨into, .ok⟩
  | _ => ⟨into, .typeErr⟩

/-! ## Go strings

A Go `string` is a sequence of bytes and need not be valid UTF-8, while a JSON string is
Unicode text. `Marshal` reads a Go string rune by rune as `utf8.DecodeRune` does, and
writes U+FFFD for every byte that starts no valid encoding; `Unmarshal` stores the UTF-8
encoding of the text. -/

/-- A byte. -/
abbrev Byte : Type :=
  Fin 256

/-- A Go `string`: a sequence of bytes. -/
abbrev GoString : Type :=
  List Byte

/-- The byte with the given value (taken modulo 256). -/
def byte (n : Nat) : Byte :=
  ⟨n % 256, Nat.mod_lt n (by decide)⟩

/-- UTF-8 encoding of a code point. -/
def encodeRune (n : Nat) : List Byte :=
  if n < 0x80 then [byte n]
  else if n < 0x800 then [byte (0xC0 + n / 64), byte (0x80 + n % 64)]
  else if n < 0x10000 then
    [byte (0xE0 + n / 4096), byte (0x80 + n / 64 % 64), byte (0x80 + n % 64)]
  else
    [byte (0xF0 + n / 262144), byte (0x80 + n / 4096 % 64), byte (0x80 + n / 64 % 64),
      byte (0x80 + n % 64)]

/-- The Go string that holds a text: its UTF-8 encoding. -/
def GoString.ofText (t : String) : GoString :=
  t.data.flatMap (fun c => encodeRune c.toNat)

/-- A continuation byte. -/
def isCont (b : Byte) : Prop :=
  0x80 ≤ b.val ∧ b.val ≤ 0xBF

instance (b : Byte) : Decidable (isCont b) :=
  inferInstanceAs (Decidable (0x80 ≤ b.val ∧ b.val ≤ 0xBF))

/-- The two bytes are a valid two-byte encoding. -/
def validTwo (b0 b1 : Byte) : Prop :=
  0xC2 ≤ b0.val ∧ b0.val ≤ 0xDF ∧ isCont b1

instance (b0 b1 : Byte) : Decidable (validTwo b0 b1) :=
  inferInstanceAs (Decidable (0xC2 ≤ b0.val ∧ b0.val ≤ 0xDF ∧ isCont b1))

/-- The three bytes are a valid three-byte encoding (neither overlong nor a surrogate). -/
def validThree (b0 b1 b2 : Byte) : Prop :=
  0xE0 ≤ b0.val ∧ b0.val ≤ 0xEF ∧
    (if b0.val = 0xE0 then 0xA0 else 0x80) ≤ b1.val ∧
    b1.val ≤ (if b0.val = 0xED then 0x9F else 0xBF) ∧ isCont b2

instance (b0 b1 b2 : Byte) : Decidable (validThree b0 b1 b2) :=
  inferInstanceAs (Decidable (0xE0 ≤ b0.val ∧ b0.val ≤ 0xEF ∧
    (if b0.val = 0xE0 then 0xA0 else 0x80) ≤ b1.val ∧
    b1.val ≤ (if b0.val = 0xED then 0x9F else 0xBF) ∧ isCont b2))

/-- The four bytes are a valid four-byte encoding (neither overlong nor beyond
U+10FFFF). -/
def validFour (b0 b1 b2 b3 : Byte) : Prop :=
  0xF0 ≤ b0.val ∧ b0.val ≤ 0xF4 ∧
    (if b0.val = 0xF0 then 0x90 else 0x80) ≤ b1.val ∧
    b1.val ≤ (if b0.val = 0xF4 then 0x8F else 0xBF) ∧ isCont b2 ∧ isCont b3

instance (b0 b1 b2 b3 : Byte) : Decidable (validFour b0 b1 b2 b3) :=
  inferInstanceAs (Decidable (0xF0 ≤ b0.val ∧ b0.val ≤ 0xF4 ∧
    (if b0.val = 0xF0 then 0x90 else 0x80) ≤ b1.val ∧
    b1.val ≤ (if b0.val = 0xF4 then 0x8F else 0xBF) ∧ isCont b2 ∧ isCont b3))

/-- The first rune of the byte sequence `b0 :: rest` and the number of bytes it takes, as
`utf8.DecodeRune` gives them: a byte that starts no valid encoding yields U+FFFD and
takes one byte. -/
def decodeRune (b0 : Byte) (rest : List Byte) : Nat × Nat :=
  if b0.val < 0x80 then (b0.val, 1)
  else
    match rest with
    | [] => (0xFFFD, 1)
    | b1 :: r1 =>
      if validTwo b0 b1 then (b0.val % 32 * 64 + b1.val % 64, 2)
      else
        match r1 with
        | [] => (0xFFFD, 1)
        | b2 :: r2 =>
          if validThree b0 b1 b2 then
            (b0.val % 16 * 4096 + b1.val % 64 * 64 + b2.val % 64, 3)
          else
            match r2 with
            | [] => (0xFFFD, 1)
            | b3 :: _ =>
              if validFour b0 b1 b2 b3 then
                (b0.val % 8 * 262144 + b1.val % 64 * 4096 + b2.val % 64 * 64 + b3.val % 64, 4)
              else (0xFFFD, 1)

/-- The runes of a byte sequence, one after the other; the first `skip` bytes belong to
the rune before and are passed over. -/
def utf8DecodeFrom : Nat → List Byte → List Char
  | _, [] => []
  | skip + 1, _ :: rest => utf8DecodeFrom skip rest
  | 0, b0 :: rest =>
    Char.ofNat (decodeRune b0 rest).1 :: utf8DecodeFrom ((decodeRune b0 rest).2 - 1) rest

/-- The text `Marshal` writes for a Go string: its runes, with U+FFFD for every invalid
byte. -/
def GoString.toText (s : GoString) : String :=
  String.mk (utf8DecodeFrom 0 s)

/-! ## Values of the basic kinds -/

/-- Encoding of a Go `string`. -/
def encString (s : GoString) : Encoded :=
  ⟨s.isEmpty, .str (GoString.toText s)⟩

/-- A JSON value decoded into a Go `string`. -/
def decString (j : Json) (cur : GoString) : Dec GoString :=
  match j with
  | .str t => ⟨GoString.ofText t, .ok⟩
  | .null => ⟨cur, .ok⟩
  | _ => ⟨cur, .typeErr⟩

/-- A JSON value decoded into a Go `bool`. -/
def decBool (j : Json) (cur : Bool) : Dec Bool :=
  match j with
  | .bool b => ⟨b, .ok⟩
  | .null => ⟨cur, .ok⟩
  | _ => ⟨cur, .typeErr⟩

/-- Encoding of a pointer: nil is empty and encodes as `null`; otherwise the pointee is
encoded, and the pointer is not empty whatever it points to. -/
def encPtr {α : Type} (enc : α → Json) : Option α → Encoded
  | none => ⟨true, .null⟩
  | some a => ⟨false, enc a⟩

/-- A JSON value decoded into a pointer: `null` sets it to nil; for anything else a nil
pointer is first pointed at a fresh zero value, and the value is decoded into the
pointee. -/
def decPtr {α : Type} (zero : α) (dec : Json → α → Dec α) (j : Json) (cur : Option α) :
    Dec (Option α) :=
  match j with
  | .null => ⟨none, .ok⟩
  | _ => (dec j (cur.getD zero)).map some

/-- Inserts a key into an association list sorted by key, replacing the value of a key
already there. Keys are compared byte by byte. -/
def insertKV (k v : GoString) : List (GoString × GoString) → List (GoString × GoString)
  | [] => [(k, v)]
  | (k1, v1) :: rest =>
    if k < k1 then (k, v) :: (k1, v1) :: rest
    else if k = k1 then (k, v) :: rest
    else (k1, v1) :: insertKV k v rest

/-- A non-nil Go `map[string]string`: its entries, sorted by key (the order in which
`Marshal` writes them), each key once. -/
def StringMap : Type :=
  { l : List (GoString × GoString) // (l.map Prod.fst).Pairwise (· < ·) }

instance : DecidableEq StringMap :=
  inferInstanceAs
    (DecidableEq { l : List (GoString × GoString) // (l.map Prod.fst).Pairwise (· < ·) })

/-- The empty, non-nil map. -/
def StringMap.empty : StringMap :=
  ⟨[], List.Pairwise.nil⟩

/-- Assignment `m[k] = v`; the entries stay sorted by key. -/
def StringMap.insert (m : StringMap) (k v : GoString) : StringMap :=
  ⟨insertKV k v m.1, by
    have hkeys : ∀ l : List (GoString × GoString),
        ∀ x ∈ (insertKV k v l).map Prod.fst, x = k ∨ x ∈ l.map Prod.fst := by
      intro l
      induction l with
      | nil => intro x hx; simpa [insertKV] using hx
      | cons p rest ih =>
        obtain ⟨k1, v1⟩ := p
        intro x hx
        unfold insertKV at hx
        split_ifs at hx with h1 h2
        · simp only [List.map_cons, List.mem_cons] at hx ⊢
          exact hx
        · simp only [List.map_cons, List.mem_cons] at hx ⊢
          rcases hx with hx | hx
          · exact Or.inl hx
          · exact Or.inr (Or.inr hx)
        · simp only [List.map_cons, List.mem_cons] at hx ⊢
          rcases hx with hx | hx
          · exact Or.inr (Or.inl hx)
          · rcases ih x hx with h | h
            · exact Or.inl h
            · exact Or.inr (Or.inr h)
    have hsorted : ∀ l : List (GoString × GoString), (l.map Prod.fst).Pairwise (· < ·) →
        ((insertKV k v l).map Prod.fst).Pairwise (· < ·) := by
      intro l
      induction l with
      | nil => intro _; simp [insertKV]
      | cons p rest ih =>
        obtain ⟨k1, v1⟩ := p
        intro h
        simp only [List.map_cons, List.pairwise_cons] at h
        unfold insertKV
        split_ifs with h1 h2
        · simp only [List.map_cons, List.pairwise_cons, List.mem_cons]
          refine ⟨?_, h.1, h.2⟩
          rintro a (rfl | ha)
          · exact h1
          · exact lt_trans h1 (h.1 a ha)
        · subst h2
          simp only [List.map_cons, List.pairwise_cons]
          exact h
        · simp only [List.map_cons, List.pairwise_cons]
          refine ⟨?_, ih h.2⟩
          intro a ha
          rcases hkeys rest a ha with rfl | ha
          · exact lt_of_le_of_ne (not_lt.mp h1) (Ne.symm h2)
          · exact h.1 a ha
    exact hsorted m.1 m.2⟩

/-- Encoding of a `map[string]string`: nil and the empty map are both empty for
`omitempty`; nil encodes as `null`, a map as an object with its entries in key order,
keys and values written as text. -/
def encStringMap : Option StringMap → Encoded
  | none => ⟨true, .null⟩
  | some m =>
    ⟨m.1.isEmpty,
      .obj (m.1.map (fun kv => (GoString.toText kv.1, Json.str (GoString.toText kv.2))))⟩

/-- One member of a JSON object decoded into a `map[string]string`: the element starts
as the empty string, the value is decoded into it, and the entry is assigned. -/
def unmarshalEntry (acc : Dec StringMap) (kv : String × Json) : Dec StringMap :=
  ⟨acc.val.insert (GoString.ofText kv.1) (decString kv.2 []).val,
    seqErr acc.err (decString kv.2 []).err⟩

/-- A JSON value decoded into a `map[string]string`: `null` makes it nil, an object is
assigned entry by entry (a nil map is made first), anything else is a type error. -/
def decStringMap (j : Json) (cur : Option StringMap) : Dec (Option StringMap) :=
  match j with
  | .null => ⟨none, .ok⟩
  | .obj ms => (ms.foldl unmarshalEntry ⟨cur.getD StringMap.empty, .ok⟩).map some
  | _ => ⟨cur, .typeErr⟩

/-- Encoding of a slice: nil encodes as `null`, otherwise an array of the encoded
elements. -/
def encSlice {α : Type} (enc : α → Json) : Option (List α) → Encoded
  | none => ⟨true, .null⟩
  | some l => ⟨l.isEmpty, .arr (l.map enc)⟩

/-- The elements of a JSON array decoded into a slice: element `i` is decoded into the
slice's element `i`, or into a zero value beyond its length. When an element aborts,
decoding stops and the rest of the slice stays as it was; otherwise the slice ends up as
long as the array. -/
def unmarshalElems {α : Type} (zero : α) (dec : Json → α → Dec α) :
    List Json → List α → Dec (List α)
  | [], _ => ⟨[], .ok⟩
  | j :: js, old =>
    match (dec j (old.headD zero)).err with
    | .abort => ⟨(dec j (old.headD zero)).val :: old.tail, .abort⟩
    | e =>
      ⟨(dec j (old.headD zero)).val :: (unmarshalElems zero dec js old.tail).val,
        seqErr e (unmarshalElems zero dec js old.tail).err⟩

/-- A JSON value decoded into a slice: `null` makes it nil, an array is decoded element
by element, anything else is a type error. -/
def decSlice {α : Type} (zero : α) (dec : Json → α → Dec α) (j : Json) (cur : Option (List α)) :
    Dec (Option (List α)) :=
  match j with
  | .null => ⟨none, .ok⟩
  | .arr js => (unmarshalElems zero dec js (cur.getD [])).map some
  | _ => ⟨cur, .typeErr⟩

/-! ## The imported `metav1` types -/

/-- The types of `k8s.io/apimachinery/pkg/apis/meta/v1` that the declarations use, with the
part of their JSON behaviour the declared structs depend on. They are declared outside
the repository and left unspecified here.

* `TypeMeta` is embedded without a tag name, so its fields are promoted: `typeMetaKeys`
  are their wire names, `marshalTypeMeta t k` the value written under key `k` (`none`
  when left out), `unmarshalTypeMeta k j t` stores `j` into the field named `k`.
* `ObjectMeta` and `ListMeta` are structs placed under the key `metadata`:
  `marshal...` gives the members of their JSON object, `unmarshal...` decodes the
  members of an object into them.
* `Time` has its own `MarshalJSON` and `UnmarshalJSON` methods. -/
structure MetaV1 where
  TypeMeta : Type
  ObjectMeta : Type
  ListMeta : Type
  Time : Type
  zeroTypeMeta : TypeMeta
  zeroObjectMeta : ObjectMeta
  zeroListMeta : ListMeta
  zeroTime : Time
  typeMetaKeys : List String
  marshalTypeMeta : TypeMeta → String → Option Json
  unmarshalTypeMeta : String → Json → TypeMeta → Dec TypeMeta
  marshalObjectMeta : ObjectMeta → List (String × Json)
  unmarshalObjectMeta : List (String × Json) → ObjectMeta → Dec ObjectMeta
  marshalListMeta : ListMeta → List (String × Json)
  unmarshalListMeta : List (String × Json) → ListMeta → Dec ListMeta
  marshalTime : Time → Json
  unmarshalTime : Json → Time → Dec Time

/-! ## Values of the declared types -/

/-- Values of `MachineSpec`; a nil pointer is `none`. -/
structure MachineSpec where
  Name : Option GoString
  Arch : Option GoString
  deriving DecidableEq, Repr

/-- Values of `MachineStatus`. -/
structure MachineStatus (K : MetaV1) where
  UpdateTime : Option K.Time
  ReadyToUse : Option Bool

/-- Values of `Machine`. -/
structure Machine (K : MetaV1) where
  TypeMeta : K.TypeMeta
  ObjectMeta : K.ObjectMeta
  Spec : MachineSpec
  Status : Option (MachineStatus K)

/-- Values of `MachineList`; a nil slice is `none`. -/
structure MachineList (K : MetaV1) where
  TypeMeta : K.TypeMeta
  ListMeta : K.ListMeta
  Items : Option (List (Machine K))

/-- Values of `MachineGroup`; a nil map is `none`. -/
structure MachineGroup (K : MetaV1) where
  TypeMeta : K.TypeMeta
  ObjectMeta : K.ObjectMeta
  Name : GoString
  Parameters : Option StringMap

/-- Values of `MachineGroupList`. -/
structure MachineGroupList (K : MetaV1) where
  TypeMeta : K.TypeMeta
  ListMeta : K.ListMeta
  Items : Option (List (MachineGroup K))

/-- The zero value of `MachineSpec`. -/
def MachineSpec.zero : MachineSpec :=
  ⟨none, none⟩

/-- The zero value of `MachineStatus`. -/
def MachineStatus.zero (K : MetaV1) : MachineStatus K :=
  ⟨none, none⟩

/-- The zero value of `Machine`. -/
def Machine.zero (K : MetaV1) : Machine K :=
  ⟨K.zeroTypeMeta, K.zeroObjectMeta, MachineSpec.zero, none⟩

/-- The zero value of `MachineList`. -/
def MachineList.zero (K : MetaV1) : MachineList K :=
  ⟨K.zeroTypeMeta, K.zeroListMeta, none⟩

/-- The zero value of `MachineGroup`. -/
def MachineGroup.zero (K : MetaV1) : MachineGroup K :=
  ⟨K.zeroTypeMeta, K.zeroObjectMeta, [], none⟩

/-- The zero value of `MachineGroupList`. -/
def MachineGroupList.zero (K : MetaV1) : MachineGroupList K :=
  ⟨K.zeroTypeMeta, K.zeroListMeta, none⟩

/-! ## The wire form of the declared types -/

/-- The fields of a `MachineSpec` value by Go name. -/
def MachineSpec.get (s : MachineSpec) (goName : String) : Encoded :=
  if goName = "Name" then encPtr (fun v => (encString v).json) s.Name
  else if goName = "Arch" then encPtr (fun v => (encString v).json) s.Arch
  else ⟨true, .null⟩

/-- Stores a decoded value into a field of a `MachineSpec`. -/
def MachineSpec.store (r : FieldRef) (j : Json) (s : MachineSpec) : Dec MachineSpec :=
  if r = .own "Name" then (decPtr [] decString j s.Name).map (fun v => { s with Name := v })
  else if r = .own "Arch" then (decPtr [] decString j s.Arch).map (fun v => { s with Arch := v })
  else ⟨s, .ok⟩

/-- JSON encoding of a `MachineSpec`. -/
def marshalMachineSpec (s : MachineSpec) : Json :=
  marshalStruct [] Decl.MachineSpec s.get (fun _ => none)

/-- A JSON value decoded into a `MachineSpec`. -/
def unmarshalMachineSpec (j : Json) (into : MachineSpec) : Dec MachineSpec :=
  intoStruct (unmarshalStruct [] Decl.MachineSpec MachineSpec.store) j into

/-- The fields of a `MachineStatus` value by Go name. -/
def MachineStatus.get (K : MetaV1) (s : MachineStatus K) (goName : String) : Encoded :=
  if goName = "UpdateTime" then encPtr K.marshalTime s.UpdateTime
  else if goName = "ReadyToUse" then encPtr Json.bool s.ReadyToUse
  else ⟨true, .null⟩

/-- Stores a decoded value into a field of a `MachineStatus`. -/
def MachineStatus.store (K : MetaV1) (r : FieldRef) (j : Json) (s : MachineStatus K) :
    Dec (MachineStatus K) :=
  if r = .own "UpdateTime" then
    (decPtr K.zeroTime K.unmarshalTime j s.UpdateTime).map (fun v => { s with UpdateTime := v })
  else if r = .own "ReadyToUse" then
    (decPtr false decBool j s.ReadyToUse).map (fun v => { s with ReadyToUse := v })
  else ⟨s, .ok⟩

/-- JSON encoding of a `MachineStatus`. -/
def marshalMachineStatus (K : MetaV1) (s : MachineStatus K) : Json :=
  marshalStruct [] Decl.MachineStatus (MachineStatus.get K s) (fun _ => none)

/-- A JSON value decoded into a `MachineStatus`. -/
def unmarshalMachineStatus (K : MetaV1) (j : Json) (into : MachineStatus K) :
    Dec (MachineStatus K) :=
  intoStruct (unmarshalStruct [] Decl.MachineStatus (MachineStatus.store K)) j into

/-- The fields of a `Machine` value by Go name. -/
def Machine.get (K : MetaV1) (m : Machine K) (goName : String) : Encoded :=
  if goName = "ObjectMeta" then ⟨false, .obj (K.marshalObjectMeta m.ObjectMeta)⟩
  else if goName = "Spec" then ⟨false, marshalMachineSpec m.Spec⟩
  else if goName = "Status" then encPtr (marshalMachineStatus K) m.Status
  else ⟨true, .null⟩

/-- Stores a decoded value into a field of a `Machine`. -/
def Machine.store (K : MetaV1) (r : FieldRef) (j : Json) (m : Machine K) : Dec (Machine K) :=
  match r with
  | .promoted k => (K.unmarshalTypeMeta k j m.TypeMeta).map (fun v => { m with TypeMeta := v })
  | .own n =>
    if n = "ObjectMeta" then
      (intoStruct K.unmarshalObjectMeta j m.ObjectMeta).map (fun v => { m with ObjectMeta := v })
    else if n = "Spec" then
      (unmarshalMachineSpec j m.Spec).map (fun v => { m with Spec := v })
    else if n = "Status" then
      (decPtr (MachineStatus.zero K) (unmarshalMachineStatus K) j m.Status).map
        (fun v => { m with Status := v })
    else ⟨m, .ok⟩

/-- JSON encoding of a `Machine`. -/
def marshalMachine (K : MetaV1) (m : Machine K) : Json :=
  marshalStruct K.typeMetaKeys Decl.Machine (Machine.get K m) (K.marshalTypeMeta m.TypeMeta)

/-- A JSON value decoded into a `Machine`. -/
def unmarshalMachine (K : MetaV1) (j : Json) (into : Machine K) : Dec (Machine K) :=
  intoStruct (unmarshalStruct K.typeMetaKeys Decl.Machine (Machine.store K)) j into

/-- The fields of a `MachineList` value by Go name. -/
def MachineList.get (K : MetaV1) (l : MachineList K) (goName : String) : Encoded :=
  if goName = "ListMeta" then ⟨false, .obj (K.marshalListMeta l.ListMeta)⟩
  else if goName = "Items" then encSlice (marshalMachine K) l.Items
  else ⟨true, .null⟩

/-- Stores a decoded value into a field of a `MachineList`. -/
def MachineList.store (K : MetaV1) (r : FieldRef) (j : Json) (l : MachineList K) :
    Dec (MachineList K) :=
  match r with
  | .promoted k => (K.unmarshalTypeMeta k j l.TypeMeta).map (fun v => { l with TypeMeta := v })
  | .own n =>
    if n = "ListMeta" then
      (intoStruct K.unmarshalListMeta j l.ListMeta).map (fun v => { l with ListMeta := v })
    else if n = "Items" then
      (decSlice (Machine.zero K) (unmarshalMachine K) j l.Items).map
        (fun v => { l with Items := v })
    else ⟨l, .ok⟩

/-- JSON encoding of a `MachineList`. -/
def marshalMachineList (K : MetaV1) (l : MachineList K) : Json :=
  marshalStruct K.typeMetaKeys Decl.MachineList (MachineList.get K l)
    (K.marshalTypeMeta l.TypeMeta)

/-- A JSON value decoded into a `MachineList`. -/
def unmarshalMachineList (K : MetaV1) (j : Json) (into : MachineList K) : Dec (MachineList K) :=
  intoStruct (unmarshalStruct K.typeMetaKeys Decl.MachineList (MachineList.store K)) j into

/-- The fields of a `MachineGroup` value by Go name. -/
def MachineGroup.get (K : MetaV1) (g : MachineGroup K) (goName : String) : Encoded :=
  if goName = "ObjectMeta" then ⟨false, .obj (K.marshalObjectMeta g.ObjectMeta)⟩
  else if goName = "Name" then encString g.Name
  else if goName = "Parameters" then encStringMap g.Parameters
  else ⟨true, .null⟩

/-- Stores a decoded value into a field of a `MachineGroup`. -/
def MachineGroup.store (K : MetaV1) (r : FieldRef) (j : Json) (g : MachineGroup K) :
    Dec (MachineGroup K) :=
  match r with
  | .promoted k => (K.unmarshalTypeMeta k j g.TypeMeta).map (fun v => { g with TypeMeta := v })
  | .own n =>
    if n = "ObjectMeta" then
      (intoStruct K.unmarshalObjectMeta j g.ObjectMeta).map (fun v => { g with ObjectMeta := v })
    else if n = "Name" then
      (decString j g.Name).map (fun v => { g with Name := v })
    else if n = "Parameters" then
      (decStringMap j g.Parameters).map (fun v => { g with Parameters := v })
    else ⟨g, .ok⟩

/-- JSON encoding of a `MachineGroup`. -/
def marshalMachineGroup (K : MetaV1) (g : MachineGroup K) : Json :=
  marshalStruct K.typeMetaKeys Decl.MachineGroup (MachineGroup.get K g)
    (K.marshalTypeMeta g.TypeMeta)

/-- A JSON value decoded into a `MachineGroup`. -/
def unmarshalMachineGroup (K : MetaV1) (j : Json) (into : MachineGroup K) :
    Dec (MachineGroup K) :=
  intoStruct (unmarshalStruct K.typeMetaKeys Decl.MachineGroup (MachineGroup.store K)) j into

/-- The fields of a `MachineGroupList` value by Go name. -/
def MachineGroupList.get (K : MetaV1) (l : MachineGroupList K) (goName : String) : Encoded :=
  if goName = "ListMeta" then ⟨false, .obj (K.marshalListMeta l.ListMeta)⟩
  else if goName = "Items" then encSlice (marshalMachineGroup K) l.Items
  else ⟨true, .null⟩

/-- Stores a decoded value into a field of a `MachineGroupList`. -/
def MachineGroupList.store (K : MetaV1) (r : FieldRef) (j : Json) (l : MachineGroupList K) :
    Dec (MachineGroupList K) :=
  match r with
  | .promoted k => (K.unmarshalTypeMeta k j l.TypeMeta).map (fun v => { l with TypeMeta := v })
  | .own n =>
    if n = "ListMeta" then
      (intoStruct K.unmarshalListMeta j l.ListMeta).map (fun v => { l with ListMeta := v })
    else if n = "Items" then
      (decSlice (MachineGroup.zero K) (unmarshalMachineGroup K) j l.Items).map
        (fun v => { l with Items := v })
    else ⟨l, .ok⟩

/-- JSON encoding of a `MachineGroupList`. -/
def marshalMachineGroupList (K : MetaV1) (l : MachineGroupList K) : Json :=
  marshalStruct K.typeMetaKeys Decl.MachineGroupList (MachineGroupList.get K l)
    (K.marshalTypeMeta l.TypeMeta)

/-- A JSON value decoded into a `MachineGroupList`. -/
def unmarshalMachineGroupList (K : MetaV1) (j : Json) (into : MachineGroupList K) :
    Dec (MachineGroupList K) :=
  intoStruct (unmarshalStruct K.typeMetaKeys Decl.MachineGroupList (MachineGroupList.store K))
    j into

/-! ## Two small instances of the imported types

Used to evaluate the definitions on concrete inputs. In both, `TypeMeta` has the two
promoted string fields `kind` and `apiVersion`, both with `omitempty`; `ObjectMeta` and
`ListMeta` are cut down to one string field each (`name`, `resourceVersion`); a `Time` is
kept as its timestamp text, the zero time being the empty text, which is written as
`null`. In `Mini` every timestamp text is read back. In `Rfc`, `UnmarshalJSON` reads a
timestamp of the fixed layout `2006-01-02T15:04:05Z` only and returns an error for a text
of any other length, such as that of a year of five digits. -/

/-- Encoding of a string field with `omitempty`. -/
def omitEmptyString (s : GoString) : Option Json :=
  if s = [] then none else some (.str (GoString.toText s))

/-- One member decoded into a struct that has the single string field `key`. -/
def storeNamed (key : String) (acc : Dec GoString) (kv : String × Json) : Dec GoString :=
  if kv.1 = key then ⟨(decString kv.2 acc.val).val, seqErr acc.err (decString kv.2 acc.val).err⟩
  else acc

/-- The small instance. -/
def Mini : MetaV1 where
  TypeMeta := GoString × GoString
  ObjectMeta := GoString
  ListMeta := GoString
  Time := String
  zeroTypeMeta := ([], [])
  zeroObjectMeta := []
  zeroListMeta := []
  zeroTime := ""
  typeMetaKeys := ["kind", "apiVersion"]
  marshalTypeMeta := fun t k =>
    if k = "kind" then omitEmptyString t.1
    else if k = "apiVersion" then omitEmptyString t.2
    else none
  unmarshalTypeMeta := fun k j t =>
    if k = "kind" then (decString j t.1).map (fun v => (v, t.2))
    else if k = "apiVersion" then (decString j t.2).map (fun v => (t.1, v))
    else ⟨t, .ok⟩
  marshalObjectMeta := fun o => if o = [] then [] else [("name", .str (GoString.toText o))]
  unmarshalObjectMeta := fun ms o => ms.foldl (storeNamed "name") ⟨o, .ok⟩
  marshalListMeta := fun o =>
    if o = [] then [] else [("resourceVersion", .str (GoString.toText o))]
  unmarshalListMeta := fun ms o => ms.foldl (storeNamed "resourceVersion") ⟨o, .ok⟩
  marshalTime := fun t => if t = "" then .null else .str t
  unmarshalTime := fun j t =>
    match j with
    | .str s => ⟨s, .ok⟩
    | .null => ⟨"", .ok⟩
    | _ => ⟨t, .abort⟩

/-- The instance whose `Time.UnmarshalJSON` reads texts of twenty characters only. -/
def Rfc : MetaV1 where
  TypeMeta := GoString × GoString
  ObjectMeta := GoString
  ListMeta := GoString
  Time := String
  zeroTypeMeta := ([], [])
  zeroObjectMeta := []
  zeroListMeta := []
  zeroTime := ""
  typeMetaKeys := ["kind", "apiVersion"]
  marshalTypeMeta := Mini.marshalTypeMeta
  unmarshalTypeMeta := Mini.unmarshalTypeMeta
  marshalObjectMeta := Mini.marshalObjectMeta
  unmarshalObjectMeta := Mini.unmarshalObjectMeta
  marshalListMeta := Mini.marshalListMeta
  unmarshalListMeta := Mini.unmarshalListMeta
  marshalTime := fun t => if t = "" then .null else .str t
  unmarshalTime := fun j t =>
    match j with
    | .str s => if s.length = 20 then ⟨s, .ok⟩ else ⟨t, .abort⟩
    | .null => ⟨"", .ok⟩
    | _ => ⟨t, .abort⟩

/-! ## Auxiliary definitions for the statements -/

/-- The candidate promoted under wire key `k`. -/
def promo (k : String) : Cand :=
  ⟨k, 1, true, false, .promoted k⟩

/-- The promoted candidates that survive next to the own candidates `O`. -/
def promotedFields (ks : List String) (O : List Cand) : List Cand :=
  (ks.map promo).filter (dominant (ks.map promo ++ O))

/-- The members of a JSON object, in order (none for any other value). -/
def Json.members : Json → List (String × Json)
  | .obj ms => ms
  | _ => []

/-- The keys of a JSON object, in order (none for any other value). -/
def Json.keys : Json → List String
  | .obj ms => ms.map Prod.fst
  | _ => []

/-- A Go string that is valid UTF-8: the encoding of some text. -/
def GoString.Valid (s : GoString) : Prop :=
  ∃ t : String, GoString.ofText t = s

/-- A map whose keys and values are all valid UTF-8. -/
def StringMap.Valid (m : StringMap) : Prop :=
  ∀ kv ∈ m.1, GoString.Valid kv.1 ∧ GoString.Valid kv.2

/-- What `omitempty` makes of a map on the wire and back: the empty map comes back as
nil, any other value as itself. -/
def omitEmptyMap : Option StringMap → Option StringMap
  | none => none
  | some m => if m.1.isEmpty then none else some m

/-- The imported types accept their own encodings: no `UnmarshalJSON` method stops the
decoding of a value that the same type has written. -/
def MetaV1.AcceptsOwn (K : MetaV1) : Prop :=
  (∀ (k : String) (t : K.TypeMeta) (j : Json) (cur : K.TypeMeta),
    K.marshalTypeMeta t k = some j → (K.unmarshalTypeMeta k j cur).err ≠ .abort) ∧
  (∀ o cur : K.ObjectMeta, (K.unmarshalObjectMeta (K.marshalObjectMeta o) cur).err ≠ .abort) ∧
  (∀ o cur : K.ListMeta, (K.unmarshalListMeta (K.marshalListMeta o) cur).err ≠ .abort) ∧
  (∀ t cur : K.Time, (K.unmarshalTime (K.marshalTime t) cur).err ≠ .abort)

/-- The members written for the promoted fields that are visible next to the own
candidates `O`. -/
def promotedMembers (ks : List String) (O : List Cand) (getInl : String → Option Json) :
    List (String × Json) :=
  (promotedFields ks O).filterMap (fun c => (getInl c.name).map (fun j => (c.name, j)))

/-- The own candidates of `Machine`. -/
def ownMachine : List Cand :=
  [⟨"metadata", 0, true, true, .own "ObjectMeta"⟩, ⟨"spec", 0, true, false, .own "Spec"⟩,
   ⟨"status", 0, true, true, .own "Status"⟩]

/-- The own candidates of `MachineGroup`. -/
def ownMachineGroup : List Cand :=
  [⟨"metadata", 0, true, true, .own "ObjectMeta"⟩, ⟨"driver", 0, true, false, .own "Name"⟩,
   ⟨"parameters", 0, true, true, .own "Parameters"⟩]

/-- The own candidates of `MachineList` and of `MachineGroupList`. -/
def ownMachineList : List Cand :=
  [⟨"metadata", 0, true, true, .own "ListMeta"⟩, ⟨"items", 0, true, false, .own "Items"⟩]



/-! ## Field resolution of the declared structs -/

theorem typeFields_MachineSpec : typeFields [] Decl.MachineSpec.fields = [] := by decide

theorem typeFields_MachineStatus : typeFields [] Decl.MachineStatus.fields =
    [⟨"creationTime", 0, true, true, .own "UpdateTime"⟩,
     ⟨"readyToUse", 0, true, true, .own "ReadyToUse"⟩] := by decide

theorem dominant_own (P O : List Cand) (c : Cand) (hc : c.depth = 0)
    (hP : ∀ d ∈ P, d.depth = 1) : dominant (P ++ O) c = dominant O c := by
  unfold dominant
  rw [List.filter_append]
  have : P.filter (fun d => d.name == c.name && !beats c d) = [] := by
    rw [List.filter_eq_nil_iff]
    intro d hd
    simp [beats, hc, hP d hd]
  rw [this, List.nil_append]

theorem filter_dominant_own (P O : List Cand) (hO : ∀ c ∈ O, c.depth = 0)
    (hP : ∀ d ∈ P, d.depth = 1) :
    O.filter (dominant (P ++ O)) = O.filter (dominant O) :=
  List.filter_congr (fun c hc => dominant_own P O c (hO c hc) hP)

theorem promoted_not_own (P O : List Cand) (c : Cand) (hc : c ∈ P) (hd1 : c.depth = 1)
    (hO : ∀ d ∈ O, d.depth = 0) (hdom : dominant (P ++ O) c = true) :
    ∀ d ∈ O, d.name ≠ c.name := by
  intro d hd hname
  unfold dominant at hdom
  rw [List.filter_append, List.length_append] at hdom
  have h1 : 0 < (P.filter (fun d => d.name == c.name && !beats c d)).length := by
    apply List.length_pos_of_mem (a := c)
    simp [List.mem_filter, hc, beats]
  have h2 : 0 < (O.filter (fun d => d.name == c.name && !beats c d)).length := by
    apply List.length_pos_of_mem (a := d)
    simp [List.mem_filter, hd, beats, hname, hd1, hO d hd]
  simp at hdom
  omega

theorem mem_promotedFields (ks : List String) (O : List Cand) (hO : ∀ d ∈ O, d.depth = 0)
    (c : Cand) (hc : c ∈ promotedFields ks O) :
    c.ref = .promoted c.name ∧ ∀ d ∈ O, d.name ≠ c.name := by
  unfold promotedFields at hc
  rw [List.mem_filter] at hc
  obtain ⟨hmem, hdom⟩ := hc
  have hP : ∀ d ∈ ks.map promo, d.depth = 1 := by
    intro d hd
    rw [List.mem_map] at hd
    obtain ⟨k, -, rfl⟩ := hd
    rfl
  refine ⟨?_, promoted_not_own _ O c hmem (hP c hmem) hO hdom⟩
  rw [List.mem_map] at hmem
  obtain ⟨k, -, rfl⟩ := hmem
  rfl

theorem typeFields_split (ks : List String) (fields : List Field) (O : List Cand)
    (hcands : candidates ks fields = ks.map promo ++ O) (hO : ∀ d ∈ O, d.depth = 0)
    (hdom : O.filter (dominant O) = O) :
    typeFields ks fields = promotedFields ks O ++ O := by
  have hP : ∀ d ∈ ks.map promo, d.depth = 1 := by
    intro d hd
    rw [List.mem_map] at hd
    obtain ⟨k, -, rfl⟩ := hd
    rfl
  unfold typeFields promotedFields
  rw [hcands, List.filter_append, filter_dominant_own _ O hO hP, hdom]

theorem findField_own (P O : List Cand) (key : String) (c : Cand)
    (hP : ∀ d ∈ P, d.name ≠ key) (hfind : O.find? (fun d => d.name == key) = some c) :
    findField (P ++ O) key = some c.ref := by
  unfold findField
  have : P.find? (fun d => d.name == key) = none := by
    rw [List.find?_eq_none]
    intro d hd
    simpa using hP d hd
  rw [List.find?_append, this, Option.none_or, hfind]

theorem findField_promoted (P O : List Cand) (c : Cand) (hc : c ∈ P)
    (hP : ∀ d ∈ P, d.ref = .promoted d.name) :
    findField (P ++ O) c.name = some (.promoted c.name) := by
  unfold findField
  have h1 : (P.find? (fun d => d.name == c.name)).isSome := by
    rw [List.find?_isSome]
    exact ⟨c, hc, by simp⟩
  obtain ⟨d, hd⟩ := Option.isSome_iff_exists.mp h1
  rw [List.find?_append, hd]
  simp only [Option.or]
  have hmem := List.mem_of_find?_eq_some hd
  have hname := List.find?_some hd
  simp only [beq_iff_eq] at hname
  simp only [hP d hmem, hname]

/-! ## Decoding step by step -/

theorem unmarshalMember_abort {σ : Type} (tf : List Cand) (store : FieldRef → Json → σ → Dec σ)
    (acc : Dec σ) (kv : String × Json) (h : acc.err = .abort) :
    unmarshalMember tf store acc kv = acc := by
  unfold unmarshalMember
  rw [h]

theorem foldl_abort {σ : Type} (tf : List Cand) (store : FieldRef → Json → σ → Dec σ)
    (ms : List (String × Json)) (acc : Dec σ) (h : acc.err = .abort) :
    ms.foldl (unmarshalMember tf store) acc = acc := by
  induction ms with
  | nil => rfl
  | cons kv rest ih => rw [List.foldl_cons, unmarshalMember_abort tf store acc kv h, ih]

theorem unmarshalMember_find {σ : Type} (tf : List Cand) (store : FieldRef → Json → σ → Dec σ)
    (acc : Dec σ) (k : String) (j : Json) (r : FieldRef) (hfind : findField tf k = some r)
    (h : acc.err ≠ .abort) :
    unmarshalMember tf store acc (k, j) =
      ⟨(store r j acc.val).val, seqErr acc.err (store r j acc.val).err⟩ := by
  unfold unmarshalMember
  cases hacc : acc.err with
  | abort => exact absurd hacc h
  | ok => simp [hfind]
  | typeErr => simp [hfind]

theorem seqErr_ne_abort (e1 e2 : DecodeErr) (h : seqErr e1 e2 ≠ .abort) :
    e1 ≠ .abort ∧ e2 ≠ .abort := by
  cases e1 <;> cases e2 <;> simp_all [seqErr]

/-- A property of the decoded value that every store to a field in `R` keeps is kept by
decoding members whose keys resolve to fields in `R`. -/
theorem foldl_invariant {σ : Type} (tf : List Cand) (store : FieldRef → Json → σ → Dec σ)
    (R : FieldRef → Prop) (inv : σ → Prop)
    (hst : ∀ r j s, R r → inv s → inv (store r j s).val)
    (ms : List (String × Json))
    (hms : ∀ kv ∈ ms, ∀ r, findField tf kv.1 = some r → R r) :
    ∀ acc : Dec σ, inv acc.val → inv (ms.foldl (unmarshalMember tf store) acc).val := by
  induction ms with
  | nil => intro acc h; exact h
  | cons kv rest ih =>
    intro acc h
    rw [List.foldl_cons]
    apply ih (fun kv1 h1 => hms kv1 (List.mem_cons_of_mem _ h1))
    unfold unmarshalMember
    cases hacc : acc.err with
    | abort => exact h
    | ok =>
      cases hf : findField tf kv.1 with
      | none => exact h
      | some r => exact hst r kv.2 acc.val (hms kv (List.mem_cons_self _ _) r hf) h
    | typeErr =>
      cases hf : findField tf kv.1 with
      | none => exact h
      | some r => exact hst r kv.2 acc.val (hms kv (List.mem_cons_self _ _) r hf) h

/-! ## Go strings and text -/

theorem utf8DecodeFrom_encodeRune (c : Char) (tail : List Byte) :
    utf8DecodeFrom 0 (encodeRune c.toNat ++ tail) = c :: utf8DecodeFrom 0 tail := by
  have hv : c.toNat < 0xD800 ∨ (0xDFFF < c.toNat ∧ c.toNat < 0x110000) := c.valid
  have hc : Char.ofNat c.toNat = c := Char.ofNat_toNat c
  generalize c.toNat = n at hv hc
  unfold encodeRune
  split_ifs with h1 h2 h3
  · have e : (byte n).val = n := by simp only [byte]; omega
    simp only [List.singleton_append]
    simp only [utf8DecodeFrom, decodeRune, e, if_pos h1, hc, Nat.sub_self]
  · have e0 : (byte (0xC0 + n / 64)).val = 0xC0 + n / 64 := by simp only [byte]; omega
    have e1 : (byte (0x80 + n % 64)).val = 0x80 + n % 64 := by simp only [byte]; omega
    have h0 : ¬ (0xC0 + n / 64 < 0x80) := by omega
    have ht : validTwo (byte (0xC0 + n / 64)) (byte (0x80 + n % 64)) := by
      simp only [validTwo, isCont, e0, e1]; omega
    have hn : (0xC0 + n / 64) % 32 * 64 + (0x80 + n % 64) % 64 = n := by omega
    simp only [List.cons_append, List.nil_append]
    simp only [utf8DecodeFrom, decodeRune, e0, e1, if_neg h0, if_pos ht, hn, hc,
      Nat.add_one_sub_one]
  · have e0 : (byte (0xE0 + n / 4096)).val = 0xE0 + n / 4096 := by simp only [byte]; omega
    have e1 : (byte (0x80 + n / 64 % 64)).val = 0x80 + n / 64 % 64 := by
      simp only [byte]; omega
    have e2 : (byte (0x80 + n % 64)).val = 0x80 + n % 64 := by simp only [byte]; omega
    have h0 : ¬ (0xE0 + n / 4096 < 0x80) := by omega
    have ht : ¬ validTwo (byte (0xE0 + n / 4096)) (byte (0x80 + n / 64 % 64)) := by
      simp only [validTwo, isCont, e0, e1]; omega
    have ht3 : validThree (byte (0xE0 + n / 4096)) (byte (0x80 + n / 64 % 64))
        (byte (0x80 + n % 64)) := by
      simp only [validThree, isCont, e0, e1, e2]
      split_ifs <;> omega
    have hn : (0xE0 + n / 4096) % 16 * 4096 + (0x80 + n / 64 % 64) % 64 * 64
        + (0x80 + n % 64) % 64 = n := by omega
    simp only [List.cons_append, List.nil_append]
    simp only [utf8DecodeFrom, decodeRune, e0, e1, e2, if_neg h0, if_neg ht, if_pos ht3, hn,
      hc, Nat.add_one_sub_one]
  · have e0 : (byte (0xF0 + n / 262144)).val = 0xF0 + n / 262144 := by
      simp only [byte]; omega
    have e1 : (byte (0x80 + n / 4096 % 64)).val = 0x80 + n / 4096 % 64 := by
      simp only [byte]; omega
    have e2 : (byte (0x80 + n / 64 % 64)).val = 0x80 + n / 64 % 64 := by
      simp only [byte]; omega
    have e3 : (byte (0x80 + n % 64)).val = 0x80 + n % 64 := by simp only [byte]; omega
    have h0 : ¬ (0xF0 + n / 262144 < 0x80) := by omega
    have ht : ¬ validTwo (byte (0xF0 + n / 262144)) (byte (0x80 + n / 4096 % 64)) := by
      simp only [validTwo, isCont, e0, e1]; omega
    have ht3 : ¬ validThree (byte (0xF0 + n / 262144)) (byte (0x80 + n / 4096 % 64))
        (byte (0x80 + n / 64 % 64)) := by
      simp only [validThree, isCont, e0, e1, e2]; omega
    have ht4 : validFour (byte (0xF0 + n / 262144)) (byte (0x80 + n / 4096 % 64))
        (byte (0x80 + n / 64 % 64)) (byte (0x80 + n % 64)) := by
      simp only [validFour, isCont, e0, e1, e2, e3]
      split_ifs <;> omega
    have hn : (0xF0 + n / 262144) % 8 * 262144 + (0x80 + n / 4096 % 64) % 64 * 4096
        + (0x80 + n / 64 % 64) % 64 * 64 + (0x80 + n % 64) % 64 = n := by omega
    simp only [List.cons_append, List.nil_append]
    simp only [utf8DecodeFrom, decodeRune, e0, e1, e2, e3, if_neg h0, if_neg ht, if_neg ht3,
      if_pos ht4, hn, hc, Nat.add_one_sub_one]

/-- The text written for the Go string that holds a text is that text. -/
theorem toText_ofText (t : String) : GoString.toText (GoString.ofText t) = t := by
  have h : ∀ cs : List Char,
      utf8DecodeFrom 0 (cs.flatMap (fun c => encodeRune c.toNat)) = cs := by
    intro cs
    induction cs with
    | nil => rfl
    | cons c cs ih => rw [List.flatMap_cons, utf8DecodeFrom_encodeRune, ih]
  unfold GoString.toText GoString.ofText
  rw [h]

/-- A valid Go string comes back from its text. -/
theorem ofText_toText (s : GoString) (h : GoString.Valid s) :
    GoString.ofText (GoString.toText s) = s := by
  obtain ⟨t, rfl⟩ := h
  rw [toText_ofText]

/-! ## Maps -/

theorem insertKV_last (k v : GoString) (l : List (GoString × GoString))
    (h : ∀ x ∈ l.map Prod.fst, x < k) : insertKV k v l = l ++ [(k, v)] := by
  induction l with
  | nil => rfl
  | cons p rest ih =>
    obtain ⟨k1, v1⟩ := p
    have hk1 : k1 < k := h k1 (by simp)
    unfold insertKV
    rw [if_neg (not_lt_of_lt hk1), if_neg (ne_of_gt hk1)]
    rw [ih (fun x hx => h x (by simp only [List.map_cons, List.mem_cons]; exact Or.inr hx))]
    rfl

theorem foldl_insertKV_sorted (suf : List (GoString × GoString)) :
    ∀ pre : List (GoString × GoString), ((pre ++ suf).map Prod.fst).Pairwise (· < ·) →
      suf.foldl (fun l kv => insertKV kv.1 kv.2 l) pre = pre ++ suf := by
  induction suf with
  | nil => intro pre _; simp
  | cons p rest ih =>
    intro pre h
    rw [List.foldl_cons]
    have hlast : insertKV p.1 p.2 pre = pre ++ [p] := by
      apply insertKV_last
      intro x hx
      rw [List.map_append, List.pairwise_append] at h
      exact h.2.2 x hx p.1 (by simp)
    rw [hlast, ih (pre ++ [p]) (by simpa using h)]
    simp

theorem foldl_unmarshalEntry (l : List (GoString × GoString))
    (hl : ∀ kv ∈ l, GoString.Valid kv.1 ∧ GoString.Valid kv.2) :
    ∀ acc : Dec StringMap,
      ((l.map (fun kv => (GoString.toText kv.1, Json.str (GoString.toText kv.2)))).foldl
          unmarshalEntry acc).val.1 =
          l.foldl (fun l kv => insertKV kv.1 kv.2 l) acc.val.1 ∧
        ((l.map (fun kv => (GoString.toText kv.1, Json.str (GoString.toText kv.2)))).foldl
          unmarshalEntry acc).err = acc.err := by
  induction l with
  | nil => intro acc; exact ⟨rfl, rfl⟩
  | cons p rest ih =>
    intro acc
    simp only [List.map_cons, List.foldl_cons]
    obtain ⟨h1, h2⟩ := ih (fun kv hkv => hl kv (List.mem_cons_of_mem _ hkv))
      (unmarshalEntry acc (GoString.toText p.1, Json.str (GoString.toText p.2)))
    obtain ⟨hk, hv⟩ := hl p (List.mem_cons_self _ _)
    rw [h1, h2]
    simp only [unmarshalEntry, decString, StringMap.insert, ofText_toText _ hk,
      ofText_toText _ hv]
    refine ⟨trivial, ?_⟩
    cases acc.err <;> rfl

/-- Decoding the encoding of a map of valid strings into a nil map gives the map back. -/
theorem decStringMap_encode (m : StringMap) (hm : m.Valid) :
    decStringMap (encStringMap (some m)).json none = ⟨some m, .ok⟩ := by
  obtain ⟨h1, h2⟩ := foldl_unmarshalEntry m.1 hm ⟨StringMap.empty, .ok⟩
  have h3 := foldl_insertKV_sorted m.1 [] (by simpa using m.2)
  simp only [encStringMap, decStringMap, Option.getD_none, Dec.map]
  rw [h2]
  congr 2
  apply Subtype.ext
  rw [h1]
  simpa [StringMap.empty] using h3

/-! ## Structs that inline `TypeMeta` -/

theorem emitField_promoted_key (ks : List String) (O : List Cand) (hO : ∀ d ∈ O, d.depth = 0)
    (get : String → Encoded) (getInl : String → Option Json) (kv : String × Json)
    (hkv : kv ∈ (promotedFields ks O).filterMap (emitField get getInl)) :
    findField (promotedFields ks O ++ O) kv.1 = some (.promoted kv.1) := by
  rw [List.mem_filterMap] at hkv
  obtain ⟨c, hc, hemit⟩ := hkv
  have href := (mem_promotedFields ks O hO c hc).1
  have hname : kv.1 = c.name := by
    unfold emitField at hemit
    rw [href] at hemit
    simp only [Option.map_eq_some'] at hemit
    obtain ⟨j, -, rfl⟩ := hemit
    rfl
  rw [hname]
  exact findField_promoted _ O c hc (fun d hd => (mem_promotedFields ks O hO d hd).1)

/-- Decoding the encoding of a struct that inlines `TypeMeta`: the promoted members come
first and touch nothing that stores to promoted fields leave alone; the members of the
struct's own fields are decoded after them. -/
theorem unmarshal_marshal_split {σ : Type} (ks : List String) (d : StructDecl) (O : List Cand)
    (htf : typeFields ks d.fields = promotedFields ks O ++ O) (hO : ∀ c ∈ O, c.depth = 0)
    (store : FieldRef → Json → σ → Dec σ) (inv : σ → Prop)
    (hst : ∀ k j s, inv s → inv (store (.promoted k) j s).val)
    (get : String → Encoded) (getInl : String → Option Json) (into : σ) (hinto : inv into) :
    ∃ A : Dec σ, inv A.val ∧
      intoStruct (unmarshalStruct ks d store) (marshalStruct ks d get getInl) into =
        (O.filterMap (emitField get getInl)).foldl
          (unmarshalMember (promotedFields ks O ++ O) store) A := by
  refine ⟨((promotedFields ks O).filterMap (emitField get getInl)).foldl
    (unmarshalMember (promotedFields ks O ++ O) store) ⟨into, .ok⟩, ?_, ?_⟩
  · apply foldl_invariant _ store (fun r => ∃ k, r = .promoted k) inv
    · rintro r j s ⟨k, rfl⟩ hs
      exact hst k j s hs
    · intro kv hkv r hr
      rw [emitField_promoted_key ks O hO get getInl kv hkv] at hr
      exact ⟨kv.1, (Option.some.inj hr).symm⟩
    · exact hinto
  · simp only [marshalStruct, intoStruct, unmarshalStruct, htf, List.filterMap_append,
      List.foldl_append]

theorem findField_ownKey (ks : List String) (O : List Cand) (hO : ∀ d ∈ O, d.depth = 0)
    (key : String) (c : Cand) (hc : c ∈ O) (hfind : O.find? (fun d => d.name == key) = some c) :
    findField (promotedFields ks O ++ O) key = some c.ref := by
  apply findField_own _ O key c _ hfind
  intro d hd hname
  have h1 := List.find?_some hfind
  simp only [beq_iff_eq] at h1
  exact (mem_promotedFields ks O hO d hd).2 c hc (h1.trans hname.symm)

theorem foldl_cons_find {σ : Type} (tf : List Cand) (store : FieldRef → Json → σ → Dec σ)
    (acc : Dec σ) (k : String) (j : Json) (rest : List (String × Json)) (r : FieldRef)
    (hfind : findField tf k = some r)
    (h : (((k, j) :: rest).foldl (unmarshalMember tf store) acc).err ≠ .abort) :
    acc.err ≠ .abort ∧
      ((k, j) :: rest).foldl (unmarshalMember tf store) acc =
        rest.foldl (unmarshalMember tf store)
          ⟨(store r j acc.val).val, seqErr acc.err (store r j acc.val).err⟩ := by
  have hacc : acc.err ≠ .abort := by
    intro habort
    rw [foldl_abort tf store _ acc habort] at h
    exact h habort
  exact ⟨hacc, by rw [List.foldl_cons, unmarshalMember_find tf store acc k j r hfind hacc]⟩

theorem typeFields_MachineGroup (ks : List String) :
    typeFields ks Decl.MachineGroup.fields = promotedFields ks ownMachineGroup ++ ownMachineGroup := by
  apply typeFields_split
  · simp [candidates, fieldCands, Decl.MachineGroup, Field.omitempty, promo, List.flatMap,
      ownMachineGroup]
  · decide
  · decide

theorem own_depth_MachineGroup : ∀ c ∈ ownMachineGroup, c.depth = 0 := by decide

theorem omitEmptyMap_some (p : Option StringMap) (m : StringMap)
    (h : omitEmptyMap p = some m) : p = some m := by
  cases p with
  | none => simp [omitEmptyMap] at h
  | some x =>
    simp only [omitEmptyMap] at h
    split_ifs at h
    exact h

/-- The members an encoded `MachineGroup` has for its own fields. -/
theorem ownMembers_MachineGroup (K : MetaV1) (g : MachineGroup K) :
    ownMachineGroup.filterMap
      (emitField (MachineGroup.get K g) (K.marshalTypeMeta g.TypeMeta)) =
      ("metadata", .obj (K.marshalObjectMeta g.ObjectMeta)) ::
        ("driver", .str (GoString.toText g.Name)) ::
        (match omitEmptyMap g.Parameters with
          | none => []
          | some m => [("parameters", (encStringMap (some m)).json)]) := by
  cases hp : g.Parameters with
  | none =>
    simp [ownMachineGroup, emitField, MachineGroup.get, encString, encStringMap, hp,
      omitEmptyMap]
  | some m =>
    by_cases hm : m.1.isEmpty = true
    · simp [ownMachineGroup, emitField, MachineGroup.get, encString, encStringMap, hp,
        omitEmptyMap, hm]
    · simp [ownMachineGroup, emitField, MachineGroup.get, encString, encStringMap, hp,
        omitEmptyMap, hm]

theorem roundtrip_MachineGroup_aux (K : MetaV1) (g : MachineGroup K)
    (h : (unmarshalMachineGroup K (marshalMachineGroup K g) (MachineGroup.zero K)).err ≠ .abort) :
    (unmarshalMachineGroup K (marshalMachineGroup K g) (MachineGroup.zero K)).val.Name =
      GoString.ofText (GoString.toText g.Name) ∧
    ((∀ m, g.Parameters = some m → m.Valid) →
      (unmarshalMachineGroup K (marshalMachineGroup K g) (MachineGroup.zero K)).val.Parameters =
        omitEmptyMap g.Parameters) := by
  obtain ⟨A, hA, heq⟩ := unmarshal_marshal_split K.typeMetaKeys Decl.MachineGroup ownMachineGroup
    (typeFields_MachineGroup _) own_depth_MachineGroup (MachineGroup.store K)
    (fun s => s.Parameters = none) (fun k j s hs => hs) (MachineGroup.get K g)
    (K.marshalTypeMeta g.TypeMeta) (MachineGroup.zero K) rfl
  unfold unmarshalMachineGroup marshalMachineGroup at h ⊢
  rw [heq] at h ⊢
  have f1 := findField_ownKey K.typeMetaKeys ownMachineGroup own_depth_MachineGroup "metadata"
    ⟨"metadata", 0, true, true, .own "ObjectMeta"⟩ (by decide) (by decide)
  have f2 := findField_ownKey K.typeMetaKeys ownMachineGroup own_depth_MachineGroup "driver"
    ⟨"driver", 0, true, false, .own "Name"⟩ (by decide) (by decide)
  have f3 := findField_ownKey K.typeMetaKeys ownMachineGroup own_depth_MachineGroup "parameters"
    ⟨"parameters", 0, true, true, .own "Parameters"⟩ (by decide) (by decide)
  rw [ownMembers_MachineGroup] at h ⊢
  obtain ⟨-, e1⟩ := foldl_cons_find _ _ _ _ _ _ _ f1 h
  rw [e1] at h ⊢
  obtain ⟨-, e2⟩ := foldl_cons_find _ _ _ _ _ _ _ f2 h
  rw [e2] at h ⊢
  cases hp : omitEmptyMap g.Parameters with
  | none =>
    simp only [hp, List.foldl_nil] at h ⊢
    simp [MachineGroup.store, Dec.map, decString, hA]
  | some m =>
    simp only [hp] at h ⊢
    obtain ⟨-, e3⟩ := foldl_cons_find _ _ _ _ _ _ _ f3 h
    rw [e3]
    refine ⟨by simp [MachineGroup.store, Dec.map, decString], ?_⟩
    intro hvalid
    have hm := hvalid m (omitEmptyMap_some _ _ hp)
    simp [MachineGroup.store, Dec.map, decString, hA, decStringMap_encode m hm]

/-! ## `MachineSpec` and `MachineStatus` -/

theorem marshalMachineSpec_eq (s : MachineSpec) : marshalMachineSpec s = .obj [] := by
  simp [marshalMachineSpec, marshalStruct, typeFields_MachineSpec]

theorem unmarshalMachineSpec_val (j : Json) (s : MachineSpec) :
    (unmarshalMachineSpec j s).val = s := by
  unfold unmarshalMachineSpec intoStruct
  cases j with
  | obj ms =>
    simp only [unmarshalStruct, typeFields_MachineSpec]
    exact foldl_invariant [] MachineSpec.store (fun _ => False) (fun x => x = s)
      (fun r j x hr _ => hr.elim) ms (fun kv _ r hr => by simp [findField] at hr) ⟨s, .ok⟩ rfl
  | null => rfl
  | bool b => rfl
  | num n => rfl
  | str x => rfl
  | arr xs => rfl

/-- The members of an encoded `MachineStatus`. -/
theorem marshalMachineStatus_eq (K : MetaV1) (s : MachineStatus K) :
    marshalMachineStatus K s = .obj
      ((match s.UpdateTime with
        | none => []
        | some t => [("creationTime", K.marshalTime t)]) ++
       (match s.ReadyToUse with
        | none => []
        | some b => [("readyToUse", Json.bool b)])) := by
  obtain ⟨u, r⟩ := s
  cases u <;> cases r <;>
    simp [marshalMachineStatus, marshalStruct, typeFields_MachineStatus, emitField,
      MachineStatus.get, encPtr]

theorem findField_creationTime :
    findField (typeFields [] Decl.MachineStatus.fields) "creationTime" =
      some (.own "UpdateTime") := by decide

theorem findField_readyToUse :
    findField (typeFields [] Decl.MachineStatus.fields) "readyToUse" =
      some (.own "ReadyToUse") := by decide

theorem roundtrip_MachineStatus_aux (K : MetaV1) (s : MachineStatus K)
    (h : (unmarshalMachineStatus K (marshalMachineStatus K s) (MachineStatus.zero K)).err
      ≠ .abort) :
    (unmarshalMachineStatus K (marshalMachineStatus K s) (MachineStatus.zero K)).val.ReadyToUse
      = s.ReadyToUse := by
  rw [marshalMachineStatus_eq] at h ⊢
  obtain ⟨u, r⟩ := s
  simp only [unmarshalMachineStatus, intoStruct, unmarshalStruct] at h ⊢
  cases u with
  | none =>
    cases r with
    | none => rfl
    | some b =>
      simp only [List.nil_append] at h ⊢
      obtain ⟨-, e1⟩ := foldl_cons_find _ _ _ _ _ _ _ findField_readyToUse h
      rw [e1]
      simp [MachineStatus.store, MachineStatus.zero, Dec.map, decPtr, decBool]
  | some t =>
    simp only [List.singleton_append] at h ⊢
    obtain ⟨-, e1⟩ := foldl_cons_find _ _ _ _ _ _ _ findField_creationTime h
    rw [e1] at h ⊢
    cases r with
    | none =>
      simp only [List.foldl_nil]
      simp only [MachineStatus.store, MachineStatus.zero, Dec.map, decPtr]
      split <;> simp
    | some b =>
      obtain ⟨-, e2⟩ := foldl_cons_find _ _ _ _ _ _ _ findField_readyToUse h
      rw [e2]
      simp [MachineStatus.store, Dec.map, decPtr, decBool]

theorem unmarshalMachineStatus_empty (K : MetaV1) (s : MachineStatus K) :
    unmarshalMachineStatus K (.obj []) s = ⟨s, .ok⟩ := rfl

/-! ## `Machine` -/

theorem typeFields_Machine (ks : List String) :
    typeFields ks Decl.Machine.fields = promotedFields ks ownMachine ++ ownMachine := by
  apply typeFields_split
  · simp [candidates, fieldCands, Decl.Machine, Field.omitempty, promo, List.flatMap,
      ownMachine]
  · decide
  · decide

theorem own_depth_Machine : ∀ c ∈ ownMachine, c.depth = 0 := by decide

/-- The members an encoded `Machine` has for its own fields. -/
theorem ownMembers_Machine (K : MetaV1) (m : Machine K) :
    ownMachine.filterMap (emitField (Machine.get K m) (K.marshalTypeMeta m.TypeMeta)) =
      ("metadata", .obj (K.marshalObjectMeta m.ObjectMeta)) :: ("spec", .obj []) ::
        (match m.Status with
          | none => []
          | some s => [("status", marshalMachineStatus K s)]) := by
  cases hs : m.Status <;>
    simp [ownMachine, emitField, Machine.get, encPtr, hs, marshalMachineSpec_eq]

/-- The encoding of a `Machine` does not depend on its `Spec`. -/
theorem marshalMachine_spec (K : MetaV1) (t : K.TypeMeta) (o : K.ObjectMeta)
    (s1 s2 : MachineSpec) (st : Option (MachineStatus K)) :
    marshalMachine K ⟨t, o, s1, st⟩ = marshalMachine K ⟨t, o, s2, st⟩ := by
  have : Machine.get K ⟨t, o, s1, st⟩ = Machine.get K ⟨t, o, s2, st⟩ := by
    funext n
    simp [Machine.get, marshalMachineSpec_eq]
  simp only [marshalMachine, this]

/-- No store into a `Machine` changes its `Spec`. -/
theorem Machine_store_spec (K : MetaV1) (r : FieldRef) (j : Json) (m : Machine K) :
    (Machine.store K r j m).val.Spec = m.Spec := by
  cases r with
  | promoted k => rfl
  | own n =>
    simp only [Machine.store]
    split_ifs <;> simp [Dec.map, unmarshalMachineSpec_val]

/-- Decoding any JSON value into a `Machine` leaves its `Spec` as it was. -/
theorem unmarshalMachine_spec (K : MetaV1) (j : Json) (into : Machine K) :
    (unmarshalMachine K j into).val.Spec = into.Spec := by
  unfold unmarshalMachine intoStruct
  cases j with
  | obj ms =>
    simp only [unmarshalStruct]
    exact foldl_invariant _ (Machine.store K) (fun _ => True) (fun x => x.Spec = into.Spec)
      (fun r j x _ hx => (Machine_store_spec K r j x).trans hx) ms (fun _ _ _ _ => trivial)
      ⟨into, .ok⟩ rfl
  | null => rfl
  | bool b => rfl
  | num n => rfl
  | str x => rfl
  | arr xs => rfl

theorem roundtrip_Machine_aux (K : MetaV1) (m : Machine K)
    (h : (unmarshalMachine K (marshalMachine K m) (Machine.zero K)).err ≠ .abort) :
    (unmarshalMachine K (marshalMachine K m) (Machine.zero K)).val.Status =
      m.Status.map (fun s =>
        (unmarshalMachineStatus K (marshalMachineStatus K s) (MachineStatus.zero K)).val) := by
  obtain ⟨A, hA, heq⟩ := unmarshal_marshal_split K.typeMetaKeys Decl.Machine ownMachine
    (typeFields_Machine _) own_depth_Machine (Machine.store K)
    (fun s => s.Status = none) (fun k j s hs => hs) (Machine.get K m)
    (K.marshalTypeMeta m.TypeMeta) (Machine.zero K) rfl
  unfold unmarshalMachine marshalMachine at h ⊢
  rw [heq, ownMembers_Machine] at h ⊢
  have f1 := findField_ownKey K.typeMetaKeys ownMachine own_depth_Machine "metadata"
    ⟨"metadata", 0, true, true, .own "ObjectMeta"⟩ (by decide) (by decide)
  have f2 := findField_ownKey K.typeMetaKeys ownMachine own_depth_Machine "spec"
    ⟨"spec", 0, true, false, .own "Spec"⟩ (by decide) (by decide)
  have f3 := findField_ownKey K.typeMetaKeys ownMachine own_depth_Machine "status"
    ⟨"status", 0, true, true, .own "Status"⟩ (by decide) (by decide)
  obtain ⟨-, e1⟩ := foldl_cons_find _ _ _ _ _ _ _ f1 h
  rw [e1] at h ⊢
  obtain ⟨-, e2⟩ := foldl_cons_find _ _ _ _ _ _ _ f2 h
  rw [e2] at h ⊢
  cases hs : m.Status with
  | none =>
    simp only [hs, List.foldl_nil] at h ⊢
    simp [Machine.store, Dec.map, hA]
  | some s =>
    simp only [hs] at h ⊢
    obtain ⟨-, e3⟩ := foldl_cons_find _ _ _ _ _ _ _ f3 h
    rw [e3]
    simp [Machine.store, Dec.map, hA, decPtr, marshalMachineStatus_eq]

/-! ## Slices and the list wrappers -/

theorem unmarshalElems_encode {α : Type} (zero : α) (dec : Json → α → Dec α) (enc : α → Json)
    (l : List α) (h : (unmarshalElems zero dec (l.map enc) []).err ≠ .abort) :
    (unmarshalElems zero dec (l.map enc) []).val = l.map (fun a => (dec (enc a) zero).val) := by
  induction l with
  | nil => rfl
  | cons a rest ih =>
    simp only [List.map_cons, unmarshalElems, List.headD_nil, List.tail_nil] at h ⊢
    cases he : (dec (enc a) zero).err with
    | abort => simp [he] at h
    | ok =>
      simp only [he] at h ⊢
      rw [ih (seqErr_ne_abort _ _ h).2]
    | typeErr =>
      simp only [he] at h ⊢
      rw [ih (seqErr_ne_abort _ _ h).2]

theorem decSlice_encode {α : Type} (zero : α) (dec : Json → α → Dec α) (enc : α → Json)
    (items : Option (List α))
    (h : (decSlice zero dec (encSlice enc items).json none).err ≠ .abort) :
    (decSlice zero dec (encSlice enc items).json none).val =
      items.map (List.map (fun a => (dec (enc a) zero).val)) := by
  cases items with
  | none => rfl
  | some l =>
    simp only [encSlice, decSlice, Dec.map, Option.getD_none, Option.map_some'] at h ⊢
    rw [unmarshalElems_encode zero dec enc l h]

theorem typeFields_MachineList (ks : List String) :
    typeFields ks Decl.MachineList.fields = promotedFields ks ownMachineList ++ ownMachineList := by
  apply typeFields_split
  · simp [candidates, fieldCands, Decl.MachineList, Field.omitempty, promo, List.flatMap,
      ownMachineList]
  · decide
  · decide

theorem typeFields_MachineGroupList (ks : List String) :
    typeFields ks Decl.MachineGroupList.fields =
      promotedFields ks ownMachineList ++ ownMachineList := by
  apply typeFields_split
  · simp [candidates, fieldCands, Decl.MachineGroupList, Field.omitempty, promo, List.flatMap,
      ownMachineList]
  · decide
  · decide

theorem own_depth_MachineList : ∀ c ∈ ownMachineList, c.depth = 0 := by decide

theorem roundtrip_MachineList_aux (K : MetaV1) (l : MachineList K)
    (h : (unmarshalMachineList K (marshalMachineList K l) (MachineList.zero K)).err ≠ .abort) :
    (unmarshalMachineList K (marshalMachineList K l) (MachineList.zero K)).val.Items =
      l.Items.map (List.map (fun m =>
        (unmarshalMachine K (marshalMachine K m) (Machine.zero K)).val)) := by
  obtain ⟨A, hA, heq⟩ := unmarshal_marshal_split K.typeMetaKeys Decl.MachineList ownMachineList
    (typeFields_MachineList _) own_depth_MachineList (MachineList.store K)
    (fun s => s.Items = none) (fun k j s hs => hs) (MachineList.get K l)
    (K.marshalTypeMeta l.TypeMeta) (MachineList.zero K) rfl
  unfold unmarshalMachineList marshalMachineList at h ⊢
  rw [heq] at h ⊢
  have hmem : ownMachineList.filterMap
      (emitField (MachineList.get K l) (K.marshalTypeMeta l.TypeMeta)) =
      [("metadata", .obj (K.marshalListMeta l.ListMeta)),
       ("items", (encSlice (marshalMachine K) l.Items).json)] := by
    simp [ownMachineList, emitField, MachineList.get]
  rw [hmem] at h ⊢
  have f1 := findField_ownKey K.typeMetaKeys ownMachineList own_depth_MachineList "metadata"
    ⟨"metadata", 0, true, true, .own "ListMeta"⟩ (by decide) (by decide)
  have f2 := findField_ownKey K.typeMetaKeys ownMachineList own_depth_MachineList "items"
    ⟨"items", 0, true, false, .own "Items"⟩ (by decide) (by decide)
  obtain ⟨-, e1⟩ := foldl_cons_find _ _ _ _ _ _ _ f1 h
  rw [e1] at h ⊢
  obtain ⟨-, e2⟩ := foldl_cons_find _ _ _ _ _ _ _ f2 h
  rw [e2] at h ⊢
  simp only [List.foldl_nil, MachineList.store, Dec.map, hA, if_true] at h ⊢
  simp only [show ("Items" = "ListMeta") = False by decide, if_false] at h ⊢
  exact decSlice_encode _ _ _ _ (seqErr_ne_abort _ _ h).2

theorem roundtrip_MachineGroupList_aux (K : MetaV1) (l : MachineGroupList K)
    (h : (unmarshalMachineGroupList K (marshalMachineGroupList K l)
      (MachineGroupList.zero K)).err ≠ .abort) :
    (unmarshalMachineGroupList K (marshalMachineGroupList K l)
      (MachineGroupList.zero K)).val.Items =
      l.Items.map (List.map (fun g =>
        (unmarshalMachineGroup K (marshalMachineGroup K g) (MachineGroup.zero K)).val)) := by
  obtain ⟨A, hA, heq⟩ := unmarshal_marshal_split K.typeMetaKeys Decl.MachineGroupList
    ownMachineList (typeFields_MachineGroupList _) own_depth_MachineList
    (MachineGroupList.store K)
    (fun s => s.Items = none) (fun k j s hs => hs) (MachineGroupList.get K l)
    (K.marshalTypeMeta l.TypeMeta) (MachineGroupList.zero K) rfl
  unfold unmarshalMachineGroupList marshalMachineGroupList at h ⊢
  rw [heq] at h ⊢
  have hmem : ownMachineList.filterMap
      (emitField (MachineGroupList.get K l) (K.marshalTypeMeta l.TypeMeta)) =
      [("metadata", .obj (K.marshalListMeta l.ListMeta)),
       ("items", (encSlice (marshalMachineGroup K) l.Items).json)] := by
    simp [ownMachineList, emitField, MachineGroupList.get]
  rw [hmem] at h ⊢
  have f1 := findField_ownKey K.typeMetaKeys ownMachineList own_depth_MachineList "metadata"
    ⟨"metadata", 0, true, true, .own "ListMeta"⟩ (by decide) (by decide)
  have f2 := findField_ownKey K.typeMetaKeys ownMachineList own_depth_MachineList "items"
    ⟨"items", 0, true, false, .own "Items"⟩ (by decide) (by decide)
  obtain ⟨-, e1⟩ := foldl_cons_find _ _ _ _ _ _ _ f1 h
  rw [e1] at h ⊢
  obtain ⟨-, e2⟩ := foldl_cons_find _ _ _ _ _ _ _ f2 h
  rw [e2] at h ⊢
  simp only [List.foldl_nil, MachineGroupList.store, Dec.map, hA, if_true] at h ⊢
  simp only [show ("Items" = "ListMeta") = False by decide, if_false] at h ⊢
  exact decSlice_encode _ _ _ _ (seqErr_ne_abort _ _ h).2

/-! ## The members of an encoded struct -/

theorem emitField_promoted (ks : List String) (O : List Cand) (hO : ∀ d ∈ O, d.depth = 0)
    (get : String → Encoded) (getInl : String → Option Json) :
    (promotedFields ks O).filterMap (emitField get getInl) =
      promotedMembers ks O getInl := by
  unfold promotedMembers
  apply List.filterMap_congr
  intro c hc
  unfold emitField
  rw [(mem_promotedFields ks O hO c hc).1]

theorem marshalStruct_eq (ks : List String) (d : StructDecl) (O : List Cand)
    (htf : typeFields ks d.fields = promotedFields ks O ++ O) (hO : ∀ c ∈ O, c.depth = 0)
    (get : String → Encoded) (getInl : String → Option Json) :
    marshalStruct ks d get getInl =
      .obj (promotedMembers ks O getInl ++ O.filterMap (emitField get getInl)) := by
  rw [marshalStruct, htf, List.filterMap_append, emitField_promoted ks O hO]

theorem promotedMembers_key (ks : List String) (O : List Cand) (hO : ∀ d ∈ O, d.depth = 0)
    (getInl : String → Option Json) (c : Cand) (hc : c ∈ O) :
    c.name ∉ (promotedMembers ks O getInl).map Prod.fst := by
  intro hmem
  rw [List.mem_map] at hmem
  obtain ⟨kv, hkv, hname⟩ := hmem
  unfold promotedMembers at hkv
  rw [List.mem_filterMap] at hkv
  obtain ⟨p, hp, hemit⟩ := hkv
  simp only [Option.map_eq_some'] at hemit
  obtain ⟨j, -, rfl⟩ := hemit
  exact (mem_promotedFields ks O hO p hp).2 c hc hname.symm

theorem marshalMachineGroup_eq (K : MetaV1) (g : MachineGroup K) :
    marshalMachineGroup K g =
      .obj (promotedMembers K.typeMetaKeys ownMachineGroup (K.marshalTypeMeta g.TypeMeta) ++
        (("metadata", .obj (K.marshalObjectMeta g.ObjectMeta)) ::
          ("driver", .str (GoString.toText g.Name)) ::
          (match omitEmptyMap g.Parameters with
            | none => []
            | some m => [("parameters", (encStringMap (some m)).json)]))) := by
  rw [marshalMachineGroup, marshalStruct_eq _ _ ownMachineGroup (typeFields_MachineGroup _)
    own_depth_MachineGroup, ownMembers_MachineGroup]

theorem marshalMachine_eq (K : MetaV1) (m : Machine K) :
    marshalMachine K m =
      .obj (promotedMembers K.typeMetaKeys ownMachine (K.marshalTypeMeta m.TypeMeta) ++
        (("metadata", .obj (K.marshalObjectMeta m.ObjectMeta)) :: ("spec", .obj []) ::
          (match m.Status with
            | none => []
            | some s => [("status", marshalMachineStatus K s)]))) := by
  rw [marshalMachine, marshalStruct_eq _ _ ownMachine (typeFields_Machine _)
    own_depth_Machine, ownMembers_Machine]

theorem keys_MachineGroup (K : MetaV1) (g : MachineGroup K) :
    ("driver", Json.str (GoString.toText g.Name)) ∈ (marshalMachineGroup K g).members ∧
      ("parameters" ∈ (marshalMachineGroup K g).keys ↔ omitEmptyMap g.Parameters ≠ none) := by
  have hp := promotedMembers_key K.typeMetaKeys ownMachineGroup own_depth_MachineGroup
    (K.marshalTypeMeta g.TypeMeta) ⟨"parameters", 0, true, true, .own "Parameters"⟩ (by decide)
  rw [marshalMachineGroup_eq]
  simp only [Json.keys, Json.members, List.map_append, List.map_cons, List.mem_append,
    List.mem_cons]
  constructor
  · exact Or.inr (Or.inr (Or.inl trivial))
  · cases h : omitEmptyMap g.Parameters with
    | none => simpa using hp
    | some m => simp

theorem keys_MachineList (K : MetaV1) (l : MachineList K) :
    "items" ∈ (marshalMachineList K l).keys := by
  rw [marshalMachineList, marshalStruct_eq _ _ ownMachineList (typeFields_MachineList _)
    own_depth_MachineList]
  simp [Json.keys, ownMachineList, emitField, MachineList.get]

theorem keys_MachineGroupList (K : MetaV1) (l : MachineGroupList K) :
    "items" ∈ (marshalMachineGroupList K l).keys := by
  rw [marshalMachineGroupList, marshalStruct_eq _ _ ownMachineList
    (typeFields_MachineGroupList _) own_depth_MachineList]
  simp [Json.keys, ownMachineList, emitField, MachineGroupList.get]

/-! ## Decoding an own encoding is not stopped when the imported types accept theirs -/

theorem seqErr_ne_abort_of (e1 e2 : DecodeErr) (h1 : e1 ≠ .abort) (h2 : e2 ≠ .abort) :
    seqErr e1 e2 ≠ .abort := by
  cases e1 <;> cases e2 <;> simp_all [seqErr]

theorem foldl_ne_abort {σ : Type} (tf : List Cand) (store : FieldRef → Json → σ → Dec σ)
    (ms : List (String × Json))
    (hms : ∀ kv ∈ ms, ∀ r, findField tf kv.1 = some r → ∀ s, (store r kv.2 s).err ≠ .abort) :
    ∀ acc : Dec σ, acc.err ≠ .abort → (ms.foldl (unmarshalMember tf store) acc).err ≠ .abort := by
  induction ms with
  | nil => intro acc h; exact h
  | cons kv rest ih =>
    intro acc h
    rw [List.foldl_cons]
    apply ih (fun kv1 h1 => hms kv1 (List.mem_cons_of_mem _ h1))
    unfold unmarshalMember
    cases hacc : acc.err with
    | abort => exact absurd hacc h
    | ok =>
      cases hf : findField tf kv.1 with
      | none => simp [hacc]
      | some r =>
        exact seqErr_ne_abort_of _ _ (by simp) (hms kv (List.mem_cons_self _ _) r hf acc.val)
    | typeErr =>
      cases hf : findField tf kv.1 with
      | none => simp [hacc]
      | some r =>
        exact seqErr_ne_abort_of _ _ (by simp) (hms kv (List.mem_cons_self _ _) r hf acc.val)

theorem decString_ne_abort (j : Json) (cur : GoString) : (decString j cur).err ≠ .abort := by
  cases j <;> simp [decString]

theorem decBool_ne_abort (j : Json) (cur : Bool) : (decBool j cur).err ≠ .abort := by
  cases j <;> simp [decBool]

theorem decStringMap_ne_abort (j : Json) (cur : Option StringMap) :
    (decStringMap j cur).err ≠ .abort := by
  have hfold : ∀ (ms : List (String × Json)) (acc : Dec StringMap), acc.err ≠ .abort →
      (ms.foldl unmarshalEntry acc).err ≠ .abort := by
    intro ms
    induction ms with
    | nil => intro acc h; exact h
    | cons kv rest ih =>
      intro acc h
      rw [List.foldl_cons]
      exact ih _ (seqErr_ne_abort_of _ _ h (decString_ne_abort _ _))
  cases j with
  | obj ms => exact hfold ms _ (by simp)
  | null => simp [decStringMap]
  | bool b => simp [decStringMap]
  | num n => simp [decStringMap]
  | str x => simp [decStringMap]
  | arr xs => simp [decStringMap]

theorem decPtr_ne_abort {α : Type} (zero : α) (dec : Json → α → Dec α) (j : Json)
    (cur : Option α) (h : ∀ into, (dec j into).err ≠ .abort) :
    (decPtr zero dec j cur).err ≠ .abort := by
  unfold decPtr
  split
  · simp
  · exact h _

theorem unmarshalElems_ne_abort {α : Type} (zero : α) (dec : Json → α → Dec α)
    (js : List Json) (h : ∀ j ∈ js, ∀ into, (dec j into).err ≠ .abort) :
    ∀ old : List α, (unmarshalElems zero dec js old).err ≠ .abort := by
  induction js with
  | nil => intro old; simp [unmarshalElems]
  | cons j rest ih =>
    intro old
    have hj := h j (List.mem_cons_self _ _) (old.headD zero)
    have hrest := ih (fun j1 h1 => h j1 (List.mem_cons_of_mem _ h1)) old.tail
    unfold unmarshalElems
    cases he : (dec j (old.headD zero)).err with
    | abort => exact absurd he hj
    | ok => exact seqErr_ne_abort_of _ _ (by simp) hrest
    | typeErr => exact seqErr_ne_abort_of _ _ (by simp) hrest

theorem decSlice_ne_abort {α : Type} (zero : α) (dec : Json → α → Dec α) (enc : α → Json)
    (items : Option (List α)) (cur : Option (List α))
    (h : ∀ a into, (dec (enc a) into).err ≠ .abort) :
    (decSlice zero dec (encSlice enc items).json cur).err ≠ .abort := by
  cases items with
  | none => simp [encSlice, decSlice]
  | some l =>
    simp only [encSlice, decSlice, Dec.map]
    apply unmarshalElems_ne_abort
    intro j hj into
    rw [List.mem_map] at hj
    obtain ⟨a, -, rfl⟩ := hj
    exact h a into

theorem unmarshalMachineStatus_ne_abort (K : MetaV1) (hK : K.AcceptsOwn) (s : MachineStatus K)
    (into : MachineStatus K) :
    (unmarshalMachineStatus K (marshalMachineStatus K s) into).err ≠ .abort := by
  rw [marshalMachineStatus_eq]
  simp only [unmarshalMachineStatus, intoStruct, unmarshalStruct]
  apply foldl_ne_abort _ _ _ _ _ (by simp)
  intro kv hkv r hr x
  obtain ⟨u, b⟩ := s
  simp only [List.mem_append] at hkv
  rcases hkv with hkv | hkv
  · cases u with
    | none => simp at hkv
    | some t =>
      simp only [List.mem_singleton] at hkv
      subst hkv
      rw [findField_creationTime] at hr
      cases hr
      simp only [MachineStatus.store, Dec.map, if_true]
      exact decPtr_ne_abort _ _ _ _ (fun into => hK.2.2.2 t into)
  · cases b with
    | none => simp at hkv
    | some v =>
      simp only [List.mem_singleton] at hkv
      subst hkv
      rw [findField_readyToUse] at hr
      cases hr
      simp only [MachineStatus.store, Dec.map]
      rw [if_pos trivial]
      exact decPtr_ne_abort _ _ _ _ (fun into => decBool_ne_abort _ _)

theorem promotedMembers_value (ks : List String) (O : List Cand)
    (getInl : String → Option Json) (kv : String × Json)
    (hkv : kv ∈ promotedMembers ks O getInl) : getInl kv.1 = some kv.2 := by
  unfold promotedMembers at hkv
  rw [List.mem_filterMap] at hkv
  obtain ⟨c, -, hemit⟩ := hkv
  simp only [Option.map_eq_some'] at hemit
  obtain ⟨j, hj, rfl⟩ := hemit
  exact hj

theorem unmarshal_marshal_ne_abort {σ : Type} (ks : List String) (d : StructDecl)
    (O : List Cand) (htf : typeFields ks d.fields = promotedFields ks O ++ O)
    (hO : ∀ c ∈ O, c.depth = 0) (store : FieldRef → Json → σ → Dec σ)
    (get : String → Encoded) (getInl : String → Option Json) (into : σ)
    (hprom : ∀ k j s, getInl k = some j → (store (.promoted k) j s).err ≠ .abort)
    (hown : ∀ kv ∈ O.filterMap (emitField get getInl), ∀ r,
      findField (promotedFields ks O ++ O) kv.1 = some r → ∀ s, (store r kv.2 s).err ≠ .abort) :
    (intoStruct (unmarshalStruct ks d store) (marshalStruct ks d get getInl) into).err
      ≠ .abort := by
  rw [marshalStruct_eq ks d O htf hO]
  simp only [intoStruct, unmarshalStruct, htf]
  apply foldl_ne_abort _ _ _ _ _ (by simp)
  intro kv hkv r hr s
  rw [List.mem_append] at hkv
  rcases hkv with hkv | hkv
  · have hval := promotedMembers_value ks O getInl kv hkv
    rw [← emitField_promoted ks O hO get getInl] at hkv
    rw [emitField_promoted_key ks O hO get getInl kv hkv] at hr
    cases hr
    exact hprom kv.1 kv.2 s hval
  · exact hown kv hkv r hr s

theorem unmarshalMachineSpec_ne_abort (j : Json) (s : MachineSpec) :
    (unmarshalMachineSpec j s).err ≠ .abort := by
  unfold unmarshalMachineSpec intoStruct
  cases j with
  | obj ms =>
    simp only [unmarshalStruct, typeFields_MachineSpec]
    exact foldl_ne_abort [] MachineSpec.store ms (fun kv _ r hr => by simp [findField] at hr)
      ⟨s, .ok⟩ (by simp)
  | null => simp
  | bool b => simp
  | num n => simp
  | str x => simp
  | arr xs => simp

theorem unmarshalMachine_ne_abort (K : MetaV1) (hK : K.AcceptsOwn) (m into : Machine K) :
    (unmarshalMachine K (marshalMachine K m) into).err ≠ .abort := by
  unfold unmarshalMachine marshalMachine
  apply unmarshal_marshal_ne_abort _ _ ownMachine (typeFields_Machine _) own_depth_Machine
  · intro k j s hj
    exact hK.1 k m.TypeMeta j s.TypeMeta hj
  · intro kv hkv r hr s
    rw [ownMembers_Machine] at hkv
    have f1 := findField_ownKey K.typeMetaKeys ownMachine own_depth_Machine "metadata"
      ⟨"metadata", 0, true, true, .own "ObjectMeta"⟩ (by decide) (by decide)
    have f2 := findField_ownKey K.typeMetaKeys ownMachine own_depth_Machine "spec"
      ⟨"spec", 0, true, false, .own "Spec"⟩ (by decide) (by decide)
    have f3 := findField_ownKey K.typeMetaKeys ownMachine own_depth_Machine "status"
      ⟨"status", 0, true, true, .own "Status"⟩ (by decide) (by decide)
    simp only [List.mem_cons] at hkv
    rcases hkv with rfl | rfl | hkv
    · rw [f1] at hr
      cases hr
      simp only [Machine.store, Dec.map, if_true, intoStruct]
      exact hK.2.1 _ _
    · rw [f2] at hr
      cases hr
      simp only [Machine.store, Dec.map]
      rw [if_pos trivial]
      exact unmarshalMachineSpec_ne_abort _ _
    · cases hs : m.Status with
      | none => simp [hs] at hkv
      | some st =>
        simp only [hs, List.mem_singleton] at hkv
        subst hkv
        rw [f3] at hr
        cases hr
        simp only [Machine.store, Dec.map]
        rw [if_pos trivial]
        exact decPtr_ne_abort _ _ _ _ (fun x => unmarshalMachineStatus_ne_abort K hK st x)

theorem unmarshalMachineGroup_ne_abort (K : MetaV1) (hK : K.AcceptsOwn)
    (g into : MachineGroup K) :
    (unmarshalMachineGroup K (marshalMachineGroup K g) into).err ≠ .abort := by
  unfold unmarshalMachineGroup marshalMachineGroup
  apply unmarshal_marshal_ne_abort _ _ ownMachineGroup (typeFields_MachineGroup _)
    own_depth_MachineGroup
  · intro k j s hj
    exact hK.1 k g.TypeMeta j s.TypeMeta hj
  · intro kv hkv r hr s
    rw [ownMembers_MachineGroup] at hkv
    have f1 := findField_ownKey K.typeMetaKeys ownMachineGroup own_depth_MachineGroup
      "metadata" ⟨"metadata", 0, true, true, .own "ObjectMeta"⟩ (by decide) (by decide)
    have f2 := findField_ownKey K.typeMetaKeys ownMachineGroup own_depth_MachineGroup "driver"
      ⟨"driver", 0, true, false, .own "Name"⟩ (by decide) (by decide)
    have f3 := findField_ownKey K.typeMetaKeys ownMachineGroup own_depth_MachineGroup
      "parameters" ⟨"parameters", 0, true, true, .own "Parameters"⟩ (by decide) (by decide)
    simp only [List.mem_cons] at hkv
    rcases hkv with rfl | rfl | hkv
    · rw [f1] at hr
      cases hr
      simp only [MachineGroup.store, Dec.map, if_true, intoStruct]
      exact hK.2.1 _ _
    · rw [f2] at hr
      cases hr
      simp only [MachineGroup.store, Dec.map]
      rw [if_pos trivial]
      exact decString_ne_abort _ _
    · cases hp : omitEmptyMap g.Parameters with
      | none => simp [hp] at hkv
      | some mp =>
        simp only [hp, List.mem_singleton] at hkv
        subst hkv
        rw [f3] at hr
        cases hr
        simp only [MachineGroup.store, Dec.map]
        rw [if_pos trivial]
        exact decStringMap_ne_abort _ _

theorem unmarshalMachineList_ne_abort (K : MetaV1) (hK : K.AcceptsOwn)
    (l into : MachineList K) :
    (unmarshalMachineList K (marshalMachineList K l) into).err ≠ .abort := by
  unfold unmarshalMachineList marshalMachineList
  apply unmarshal_marshal_ne_abort _ _ ownMachineList (typeFields_MachineList _)
    own_depth_MachineList
  · intro k j s hj
    exact hK.1 k l.TypeMeta j s.TypeMeta hj
  · intro kv hkv r hr s
    have hmem : ownMachineList.filterMap
        (emitField (MachineList.get K l) (K.marshalTypeMeta l.TypeMeta)) =
        [("metadata", .obj (K.marshalListMeta l.ListMeta)),
         ("items", (encSlice (marshalMachine K) l.Items).json)] := by
      simp [ownMachineList, emitField, MachineList.get]
    rw [hmem] at hkv
    have f1 := findField_ownKey K.typeMetaKeys ownMachineList own_depth_MachineList "metadata"
      ⟨"metadata", 0, true, true, .own "ListMeta"⟩ (by decide) (by decide)
    have f2 := findField_ownKey K.typeMetaKeys ownMachineList own_depth_MachineList "items"
      ⟨"items", 0, true, false, .own "Items"⟩ (by decide) (by decide)
    simp only [List.mem_cons, List.mem_singleton, List.not_mem_nil, or_false] at hkv
    rcases hkv with rfl | rfl
    · rw [f1] at hr
      cases hr
      simp only [MachineList.store, Dec.map, if_true, intoStruct]
      exact hK.2.2.1 _ _
    · rw [f2] at hr
      cases hr
      simp only [MachineList.store, Dec.map]
      rw [if_pos trivial]
      exact decSlice_ne_abort _ _ _ _ _ (fun a x => unmarshalMachine_ne_abort K hK a x)

theorem unmarshalMachineGroupList_ne_abort (K : MetaV1) (hK : K.AcceptsOwn)
    (l into : MachineGroupList K) :
    (unmarshalMachineGroupList K (marshalMachineGroupList K l) into).err ≠ .abort := by
  unfold unmarshalMachineGroupList marshalMachineGroupList
  apply unmarshal_marshal_ne_abort _ _ ownMachineList (typeFields_MachineGroupList _)
    own_depth_MachineList
  · intro k j s hj
    exact hK.1 k l.TypeMeta j s.TypeMeta hj
  · intro kv hkv r hr s
    have hmem : ownMachineList.filterMap
        (emitField (MachineGroupList.get K l) (K.marshalTypeMeta l.TypeMeta)) =
        [("metadata", .obj (K.marshalListMeta l.ListMeta)),
         ("items", (encSlice (marshalMachineGroup K) l.Items).json)] := by
      simp [ownMachineList, emitField, MachineGroupList.get]
    rw [hmem] at hkv
    have f1 := findField_ownKey K.typeMetaKeys ownMachineList own_depth_MachineList "metadata"
      ⟨"metadata", 0, true, true, .own "ListMeta"⟩ (by decide) (by decide)
    have f2 := findField_ownKey K.typeMetaKeys ownMachineList own_depth_MachineList "items"
      ⟨"items", 0, true, false, .own "Items"⟩ (by decide) (by decide)
    simp only [List.mem_cons, List.mem_singleton, List.not_mem_nil, or_false] at hkv
    rcases hkv with rfl | rfl
    · rw [f1] at hr
      cases hr
      simp only [MachineGroupList.store, Dec.map, if_true, intoStruct]
      exact hK.2.2.1 _ _
    · rw [f2] at hr
      cases hr
      simp only [MachineGroupList.store, Dec.map]
      rw [if_pos trivial]
      exact decSlice_ne_abort _ _ _ _ _ (fun a x => unmarshalMachineGroup_ne_abort K hK a x)

/-- The small instance accepts its own encodings. -/
theorem Mini_acceptsOwn : Mini.AcceptsOwn := by
  have hfold : ∀ (key : String) (ms : List (String × Json)) (acc : Dec GoString),
      acc.err ≠ .abort → (ms.foldl (storeNamed key) acc).err ≠ .abort := by
    intro key ms
    induction ms with
    | nil => intro acc h; exact h
    | cons kv rest ih =>
      intro acc h
      rw [List.foldl_cons]
      apply ih
      unfold storeNamed
      split_ifs
      · exact seqErr_ne_abort_of _ _ h (decString_ne_abort _ _)
      · exact h
  refine ⟨?_, ?_, ?_, ?_⟩
  · intro k t j cur _
    show (if k = "kind" then _ else if k = "apiVersion" then _ else _ :
      Dec (GoString × GoString)).err ≠ .abort
    split_ifs
    · exact decString_ne_abort _ _
    · exact decString_ne_abort _ _
    · simp
  · intro o cur
    exact hfold "name" _ _ (by simp)
  · intro o cur
    exact hfold "resourceVersion" _ _ (by simp)
  · intro t cur
    simp only [Mini]
    split_ifs <;> simp

/-! ## The claims -/

/-- C1 (as amended): when decoding the encoding of a `MachineGroup` into a zero value is
not stopped by an `UnmarshalJSON` error of the imported types, the decoded `Name` is the
original `Name` with U+FFFD in place of every invalid byte, hence the original `Name`
when that is valid UTF-8; and when the keys and values of `Parameters` are valid UTF-8,
the decoded `Parameters` is the original one, except that an empty non-nil map comes
back unset. The decoding is not stopped when the imported types accept their own
encodings. The encoding always has `Name` under the key `driver`, and has the key
`parameters` exactly when `Parameters` is a non-empty map. -/
theorem C1_machineGroup_round_trip (K : MetaV1) (g : MachineGroup K) :
    ("driver", Json.str (GoString.toText g.Name)) ∈ (marshalMachineGroup K g).members ∧
    ("parameters" ∈ (marshalMachineGroup K g).keys ↔ omitEmptyMap g.Parameters ≠ none) ∧
    ((unmarshalMachineGroup K (marshalMachineGroup K g) (MachineGroup.zero K)).err ≠ .abort →
      (unmarshalMachineGroup K (marshalMachineGroup K g) (MachineGroup.zero K)).val.Name
          = GoString.ofText (GoString.toText g.Name) ∧
        (GoString.Valid g.Name →
          (unmarshalMachineGroup K (marshalMachineGroup K g) (MachineGroup.zero K)).val.Name
            = g.Name) ∧
        ((∀ m, g.Parameters = some m → m.Valid) →
          (unmarshalMachineGroup K (marshalMachineGroup K g)
            (MachineGroup.zero K)).val.Parameters = omitEmptyMap g.Parameters)) ∧
    (K.AcceptsOwn →
      (unmarshalMachineGroup K (marshalMachineGroup K g) (MachineGroup.zero K)).err ≠ .abort) :=
  ⟨(keys_MachineGroup K g).1, (keys_MachineGroup K g).2,
    fun h => ⟨(roundtrip_MachineGroup_aux K g h).1,
      fun hv => (roundtrip_MachineGroup_aux K g h).1.trans (ofText_toText _ hv),
      (roundtrip_MachineGroup_aux K g h).2⟩,
    fun hK => unmarshalMachineGroup_ne_abort K hK g _⟩

/-- C1, witness: the `MachineGroup` with name `drv` and the one-entry map from `a` to `1`,
over the small instance. -/
theorem C1_machineGroup_round_trip_witness :
    ((unmarshalMachineGroup Mini
        (marshalMachineGroup Mini ⟨([], []), [], GoString.ofText "drv",
          some ⟨[(GoString.ofText "a", GoString.ofText "1")], by simp⟩⟩)
        (MachineGroup.zero Mini)).val.Name = GoString.ofText "drv" ∧
      (unmarshalMachineGroup Mini
        (marshalMachineGroup Mini ⟨([], []), [], GoString.ofText "drv",
          some ⟨[(GoString.ofText "a", GoString.ofText "1")], by simp⟩⟩)
        (MachineGroup.zero Mini)).val.Parameters =
        omitEmptyMap (some ⟨[(GoString.ofText "a", GoString.ofText "1")], by simp⟩)) ∧
      (unmarshalMachineGroup Mini
        (marshalMachineGroup Mini ⟨([], []), [], GoString.ofText "drv",
          some ⟨[(GoString.ofText "a", GoString.ofText "1")], by simp⟩⟩)
        (MachineGroup.zero Mini)).err ≠ .abort :=
  ⟨⟨((C1_machineGroup_round_trip Mini ⟨([], []), [], GoString.ofText "drv",
        some ⟨[(GoString.ofText "a", GoString.ofText "1")], by simp⟩⟩).2.2.1
        (by decide)).2.1 ⟨"drv", rfl⟩,
      ((C1_machineGroup_round_trip Mini ⟨([], []), [], GoString.ofText "drv",
        some ⟨[(GoString.ofText "a", GoString.ofText "1")], by simp⟩⟩).2.2.1
        (by decide)).2.2 (by
          intro m hm
          cases hm
          intro kv hkv
          simp only [List.mem_singleton] at hkv
          subst hkv
          exact ⟨⟨"a", rfl⟩, ⟨"1", rfl⟩⟩)⟩,
    (C1_machineGroup_round_trip Mini ⟨([], []), [], GoString.ofText "drv",
      some ⟨[(GoString.ofText "a", GoString.ofText "1")], by simp⟩⟩).2.2.2 Mini_acceptsOwn⟩

/-- C1 as stated fails. A `MachineGroup` whose `Parameters` is the empty non-nil map is
encoded without the key `parameters`, and decoding gives unset `Parameters`, not the
empty map. A `MachineGroup` whose `Name` is the single byte 0xFF, which is not valid
UTF-8, is encoded with the text U+FFFD under `driver`, and decoding gives the three
bytes of U+FFFD, not the original `Name`. A `Parameters` map with the two keys 0xFE and
0xFF is encoded with the key U+FFFD twice, and decoding gives a map of one entry. -/
theorem C1_round_trip_counterexample :
    (marshalMachineGroup Mini ⟨([], []), [], [], some StringMap.empty⟩).keys
        = ["metadata", "driver"] ∧
      (unmarshalMachineGroup Mini
        (marshalMachineGroup Mini ⟨([], []), [], [], some StringMap.empty⟩)
        (MachineGroup.zero Mini)).val.Parameters = none ∧
      (unmarshalMachineGroup Mini
        (marshalMachineGroup Mini ⟨([], []), [], [], some StringMap.empty⟩)
        (MachineGroup.zero Mini)).val.Parameters ≠
        (⟨([], []), [], [], some StringMap.empty⟩ : MachineGroup Mini).Parameters ∧
      (unmarshalMachineGroup Mini
        (marshalMachineGroup Mini ⟨([], []), [], [0xFF], none⟩)
        (MachineGroup.zero Mini)).val.Name = [0xEF, 0xBF, 0xBD] ∧
      (unmarshalMachineGroup Mini
        (marshalMachineGroup Mini ⟨([], []), [], [0xFF], none⟩)
        (MachineGroup.zero Mini)).val.Name ≠
        (⟨([], []), [], [0xFF], none⟩ : MachineGroup Mini).Name ∧
      (unmarshalMachineGroup Mini
        (marshalMachineGroup Mini ⟨([], []), [], [],
          some ⟨[([0xFE], [0x31]), ([0xFF], [0x32])], by decide⟩⟩)
        (MachineGroup.zero Mini)).val.Parameters =
        some ⟨[([0xEF, 0xBF, 0xBD], [0x32])], by decide⟩ := by
  decide

/-- C2, at the failing input: a `Machine` with `Spec.Name` set to "a" and `Spec.Arch` set
to "x86" is encoded with an empty `spec` object, and decoding that encoding succeeds
with both fields unset. -/
theorem C2_spec_fields_lost :
    (marshalMachine Mini
        ⟨([], []), [], ⟨some (GoString.ofText "a"), some (GoString.ofText "x86")⟩, none⟩).keys
        = ["metadata", "spec"] ∧
      marshalMachineSpec ⟨some (GoString.ofText "a"), some (GoString.ofText "x86")⟩
        = .obj [] ∧
      (unmarshalMachine Mini
        (marshalMachine Mini
          ⟨([], []), [], ⟨some (GoString.ofText "a"), some (GoString.ofText "x86")⟩, none⟩)
        (Machine.zero Mini)).err = .ok ∧
      (unmarshalMachine Mini
        (marshalMachine Mini
          ⟨([], []), [], ⟨some (GoString.ofText "a"), some (GoString.ofText "x86")⟩, none⟩)
        (Machine.zero Mini)).val.Spec = ⟨none, none⟩ :=
  ⟨by decide, rfl, by decide, by decide⟩

/-- C3 as stated fails when an item cannot be read back: over the instance `Rfc`, a
`MachineList` of three machines whose first has the `UpdateTime` of a five-digit year is
decoded to a list of one item, because `Time.UnmarshalJSON` returns an error on the
first item and the decoding stops there. -/
theorem C3_stopped_counterexample :
    (unmarshalMachineList Rfc
      (marshalMachineList Rfc ⟨([], []), [],
        some [⟨([], []), [], ⟨none, none⟩, some ⟨some "10000-01-01T00:00:00Z", none⟩⟩,
          Machine.zero Rfc, Machine.zero Rfc]⟩)
      (MachineList.zero Rfc)).val.Items.map List.length = some 1 ∧
    (unmarshalMachineList Rfc
      (marshalMachineList Rfc ⟨([], []), [],
        some [⟨([], []), [], ⟨none, none⟩, some ⟨some "10000-01-01T00:00:00Z", none⟩⟩,
          Machine.zero Rfc, Machine.zero Rfc]⟩)
      (MachineList.zero Rfc)).err = .abort := by
  decide

/-- C3 (as amended): when decoding the encoding of a `MachineList` (of a
`MachineGroupList`) into a zero value is not stopped by an `UnmarshalJSON` error of the
imported types, the decoded `Items` is the original `Items` with every item replaced, in
place, by the result of decoding its own encoding: a nil slice stays nil, and otherwise
the length and the order are those of the original; and the decoding is not stopped when
the imported types accept their own encodings. The key `items` is always present. -/
theorem C3_list_round_trip (K : MetaV1) (l : MachineList K) (gl : MachineGroupList K) :
    "items" ∈ (marshalMachineList K l).keys ∧
    "items" ∈ (marshalMachineGroupList K gl).keys ∧
    ((unmarshalMachineList K (marshalMachineList K l) (MachineList.zero K)).err ≠ .abort →
      (unmarshalMachineList K (marshalMachineList K l) (MachineList.zero K)).val.Items =
        l.Items.map (List.map (fun m =>
          (unmarshalMachine K (marshalMachine K m) (Machine.zero K)).val))) ∧
    ((unmarshalMachineGroupList K (marshalMachineGroupList K gl)
        (MachineGroupList.zero K)).err ≠ .abort →
      (unmarshalMachineGroupList K (marshalMachineGroupList K gl)
        (MachineGroupList.zero K)).val.Items =
        gl.Items.map (List.map (fun g =>
          (unmarshalMachineGroup K (marshalMachineGroup K g) (MachineGroup.zero K)).val))) ∧
    (K.AcceptsOwn →
      (unmarshalMachineList K (marshalMachineList K l) (MachineList.zero K)).err ≠ .abort ∧
        (unmarshalMachineGroupList K (marshalMachineGroupList K gl)
          (MachineGroupList.zero K)).err ≠ .abort) :=
  ⟨keys_MachineList K l, keys_MachineGroupList K gl, roundtrip_MachineList_aux K l,
    roundtrip_MachineGroupList_aux K gl,
    fun hK => ⟨unmarshalMachineList_ne_abort K hK l _,
      unmarshalMachineGroupList_ne_abort K hK gl _⟩⟩

/-- C3, witness: a `MachineList` of two machines and a `MachineGroupList` of one group
over the small instance. -/
theorem C3_list_round_trip_witness :
    (unmarshalMachineList Mini
      (marshalMachineList Mini ⟨([], []), GoString.ofText "7",
        some [⟨([], []), GoString.ofText "m", ⟨none, none⟩, some ⟨some "t", some true⟩⟩,
          Machine.zero Mini]⟩)
      (MachineList.zero Mini)).val.Items =
      (some [⟨([], []), GoString.ofText "m", ⟨none, none⟩, some ⟨some "t", some true⟩⟩,
          Machine.zero Mini] : Option (List (Machine Mini))).map (List.map (fun m =>
        (unmarshalMachine Mini (marshalMachine Mini m) (Machine.zero Mini)).val)) ∧
    (unmarshalMachineGroupList Mini
      (marshalMachineGroupList Mini ⟨([], []), GoString.ofText "7",
        some [⟨([], []), GoString.ofText "g", GoString.ofText "drv", none⟩]⟩)
      (MachineGroupList.zero Mini)).val.Items =
      (some [⟨([], []), GoString.ofText "g", GoString.ofText "drv", none⟩] :
        Option (List (MachineGroup Mini))).map (List.map (fun g =>
        (unmarshalMachineGroup Mini (marshalMachineGroup Mini g) (MachineGroup.zero Mini)).val)) ∧
    (unmarshalMachineList Mini
      (marshalMachineList Mini ⟨([], []), GoString.ofText "7",
        some [⟨([], []), GoString.ofText "m", ⟨none, none⟩, some ⟨some "t", some true⟩⟩,
          Machine.zero Mini]⟩)
      (MachineList.zero Mini)).err ≠ .abort :=
  ⟨(C3_list_round_trip Mini ⟨([], []), GoString.ofText "7",
      some [⟨([], []), GoString.ofText "m", ⟨none, none⟩, some ⟨some "t", some true⟩⟩,
        Machine.zero Mini]⟩
      ⟨([], []), GoString.ofText "7",
        some [⟨([], []), GoString.ofText "g", GoString.ofText "drv", none⟩]⟩).2.2.1
      (by decide),
    (C3_list_round_trip Mini ⟨([], []), GoString.ofText "7",
      some [⟨([], []), GoString.ofText "m", ⟨none, none⟩, some ⟨some "t", some true⟩⟩,
        Machine.zero Mini]⟩
      ⟨([], []), GoString.ofText "7",
        some [⟨([], []), GoString.ofText "g", GoString.ofText "drv", none⟩]⟩).2.2.2.1
      (by decide),
    ((C3_list_round_trip Mini ⟨([], []), GoString.ofText "7",
      some [⟨([], []), GoString.ofText "m", ⟨none, none⟩, some ⟨some "t", some true⟩⟩,
        Machine.zero Mini]⟩
      ⟨([], []), GoString.ofText "7",
        some [⟨([], []), GoString.ofText "g", GoString.ofText "drv", none⟩]⟩).2.2.2.2
      Mini_acceptsOwn).1⟩

/-- C4 as stated fails for `MachineGroup.Parameters`: the object with `Parameters` unset
and the object with `Parameters` set to the empty map have one and the same encoding. -/
theorem C4_parameters_counterexample :
    marshalMachineGroup Mini ⟨([], []), [], [], none⟩ =
        marshalMachineGroup Mini ⟨([], []), [], [], some StringMap.empty⟩ ∧
      (⟨([], []), [], [], none⟩ : MachineGroup Mini).Parameters ≠
        (⟨([], []), [], [], some StringMap.empty⟩ : MachineGroup Mini).Parameters :=
  ⟨rfl, by decide⟩

/-- C4 (as amended). For `Machine.Status` and `MachineStatus.ReadyToUse`, the object with
the field unset and the object with the field at its zero value (the empty
`MachineStatus`, `false`) have different encodings, and when decoding is not stopped by
an `UnmarshalJSON` error of the imported types each encoding decodes to the field unset,
respectively at its zero value. For `MachineStatus.UpdateTime` the two encodings differ
and the unset one decodes to the unset object. For `MachineGroup.Parameters` the unset
map and the empty map have the same encoding, which decodes to unset. No decoding of an
own encoding is stopped when the imported types accept their own encodings. -/
theorem C4_unset_versus_zero (K : MetaV1) :
    (∀ (t : K.TypeMeta) (o : K.ObjectMeta) (sp : MachineSpec),
      marshalMachine K ⟨t, o, sp, none⟩ ≠
        marshalMachine K ⟨t, o, sp, some (MachineStatus.zero K)⟩) ∧
    (∀ (t : K.TypeMeta) (o : K.ObjectMeta) (sp : MachineSpec),
      (unmarshalMachine K (marshalMachine K ⟨t, o, sp, none⟩) (Machine.zero K)).err ≠ .abort →
      (unmarshalMachine K (marshalMachine K ⟨t, o, sp, none⟩) (Machine.zero K)).val.Status
        = none) ∧
    (∀ (t : K.TypeMeta) (o : K.ObjectMeta) (sp : MachineSpec),
      (unmarshalMachine K (marshalMachine K ⟨t, o, sp, some (MachineStatus.zero K)⟩)
        (Machine.zero K)).err ≠ .abort →
      (unmarshalMachine K (marshalMachine K ⟨t, o, sp, some (MachineStatus.zero K)⟩)
        (Machine.zero K)).val.Status = some (MachineStatus.zero K)) ∧
    (∀ u : Option K.Time,
      marshalMachineStatus K ⟨u, none⟩ ≠ marshalMachineStatus K ⟨u, some false⟩) ∧
    (∀ u : Option K.Time,
      (unmarshalMachineStatus K (marshalMachineStatus K ⟨u, none⟩)
        (MachineStatus.zero K)).err ≠ .abort →
      (unmarshalMachineStatus K (marshalMachineStatus K ⟨u, none⟩)
        (MachineStatus.zero K)).val.ReadyToUse = none) ∧
    (∀ u : Option K.Time,
      (unmarshalMachineStatus K (marshalMachineStatus K ⟨u, some false⟩)
        (MachineStatus.zero K)).err ≠ .abort →
      (unmarshalMachineStatus K (marshalMachineStatus K ⟨u, some false⟩)
        (MachineStatus.zero K)).val.ReadyToUse = some false) ∧
    (∀ r : Option Bool,
      marshalMachineStatus K ⟨none, r⟩ ≠ marshalMachineStatus K ⟨some K.zeroTime, r⟩) ∧
    (∀ r : Option Bool,
      unmarshalMachineStatus K (marshalMachineStatus K ⟨none, r⟩) (MachineStatus.zero K)
        = ⟨⟨none, r⟩, .ok⟩) ∧
    (∀ (t : K.TypeMeta) (o : K.ObjectMeta) (n : GoString),
      marshalMachineGroup K ⟨t, o, n, none⟩ =
        marshalMachineGroup K ⟨t, o, n, some StringMap.empty⟩) ∧
    (∀ (t : K.TypeMeta) (o : K.ObjectMeta) (n : GoString),
      (unmarshalMachineGroup K (marshalMachineGroup K ⟨t, o, n, some StringMap.empty⟩)
        (MachineGroup.zero K)).err ≠ .abort →
      (unmarshalMachineGroup K (marshalMachineGroup K ⟨t, o, n, some StringMap.empty⟩)
        (MachineGroup.zero K)).val.Parameters = none) ∧
    (K.AcceptsOwn →
      (∀ m : Machine K,
        (unmarshalMachine K (marshalMachine K m) (Machine.zero K)).err ≠ .abort) ∧
      (∀ s : MachineStatus K,
        (unmarshalMachineStatus K (marshalMachineStatus K s) (MachineStatus.zero K)).err
          ≠ .abort) ∧
      (∀ g : MachineGroup K,
        (unmarshalMachineGroup K (marshalMachineGroup K g) (MachineGroup.zero K)).err
          ≠ .abort)) := by
  refine ⟨?_, ?_, ?_, ?_, ?_, ?_, ?_, ?_, ?_, ?_, ?_⟩
  · intro t o sp h
    rw [marshalMachine_eq, marshalMachine_eq] at h
    simp at h
  · intro t o sp h
    exact roundtrip_Machine_aux K _ h
  · intro t o sp h
    rw [roundtrip_Machine_aux K _ h]
    simp [marshalMachineStatus_eq, MachineStatus.zero, unmarshalMachineStatus_empty]
  · intro u h
    rw [marshalMachineStatus_eq, marshalMachineStatus_eq] at h
    cases u <;> simp at h
  · intro u h
    exact roundtrip_MachineStatus_aux K _ h
  · intro u h
    exact roundtrip_MachineStatus_aux K _ h
  · intro r h
    rw [marshalMachineStatus_eq, marshalMachineStatus_eq] at h
    cases r <;> simp at h
  · intro r
    rw [marshalMachineStatus_eq]
    cases r with
    | none => rfl
    | some b =>
      simp only [unmarshalMachineStatus, intoStruct, unmarshalStruct, List.nil_append,
        List.foldl_cons, List.foldl_nil]
      rw [unmarshalMember_find _ _ _ _ _ _ findField_readyToUse (by simp)]
      simp [MachineStatus.store, MachineStatus.zero, Dec.map, decPtr, decBool, seqErr]
  · intro t o n
    rw [marshalMachineGroup_eq, marshalMachineGroup_eq]
    simp [omitEmptyMap, StringMap.empty]
  · intro t o n h
    exact (roundtrip_MachineGroup_aux K _ h).2 (by
      intro m hm
      cases hm
      intro kv hkv
      simp [StringMap.empty] at hkv)
  · intro hK
    exact ⟨fun m => unmarshalMachine_ne_abort K hK m _,
      fun s => unmarshalMachineStatus_ne_abort K hK s _,
      fun g => unmarshalMachineGroup_ne_abort K hK g _⟩

/-- C4, witness: the decoding parts at objects over the small instance. -/
theorem C4_unset_versus_zero_witness :
    (unmarshalMachine Mini (marshalMachine Mini ⟨([], []), GoString.ofText "m", ⟨none, none⟩, none⟩)
        (Machine.zero Mini)).val.Status = none ∧
      (unmarshalMachine Mini
        (marshalMachine Mini ⟨([], []), GoString.ofText "m", ⟨none, none⟩,
          some (MachineStatus.zero Mini)⟩)
        (Machine.zero Mini)).val.Status = some (MachineStatus.zero Mini) ∧
      (unmarshalMachineStatus Mini (marshalMachineStatus Mini ⟨some "t", none⟩)
        (MachineStatus.zero Mini)).val.ReadyToUse = none ∧
      (unmarshalMachineStatus Mini (marshalMachineStatus Mini ⟨some "t", some false⟩)
        (MachineStatus.zero Mini)).val.ReadyToUse = some false ∧
      (unmarshalMachineGroup Mini
        (marshalMachineGroup Mini ⟨([], []), GoString.ofText "g", GoString.ofText "drv",
          some StringMap.empty⟩)
        (MachineGroup.zero Mini)).val.Parameters = none ∧
      (unmarshalMachine Mini
        (marshalMachine Mini ⟨([], []), GoString.ofText "m", ⟨none, none⟩,
          some (MachineStatus.zero Mini)⟩)
        (Machine.zero Mini)).err ≠ .abort :=
  ⟨(C4_unset_versus_zero Mini).2.1 ([], []) (GoString.ofText "m") ⟨none, none⟩ (by decide),
    (C4_unset_versus_zero Mini).2.2.1 ([], []) (GoString.ofText "m") ⟨none, none⟩ (by decide),
    (C4_unset_versus_zero Mini).2.2.2.2.1 (some "t") (by decide),
    (C4_unset_versus_zero Mini).2.2.2.2.2.1 (some "t") (by decide),
    (C4_unset_versus_zero Mini).2.2.2.2.2.2.2.2.2.1 ([], []) (GoString.ofText "g") (GoString.ofText "drv")
      (by decide),
    ((C4_unset_versus_zero Mini).2.2.2.2.2.2.2.2.2.2 Mini_acceptsOwn).1 _⟩

/-- C5: the Go type and the wire key declared for each field of the interface table. -/
theorem C5_declared_types_and_keys :
    (Decl.MachineSpec.field? "Name").map (fun f => (f.goType, f.jsonName))
        = some (.ptr .string, "source") ∧
    (Decl.MachineSpec.field? "Arch").map (fun f => (f.goType, f.jsonName))
        = some (.ptr .string, "source") ∧
    (Decl.MachineStatus.field? "UpdateTime").map (fun f => (f.goType, f.jsonName))
        = some (.ptr (.named "metav1" "Time"), "creationTime") ∧
    (Decl.MachineStatus.field? "ReadyToUse").map (fun f => (f.goType, f.jsonName))
        = some (.ptr .bool, "readyToUse") ∧
    (Decl.MachineGroup.field? "Name").map (fun f => (f.goType, f.jsonName))
        = some (.string, "driver") ∧
    (Decl.MachineGroup.field? "Parameters").map (fun f => (f.goType, f.jsonName))
        = some (.mapOf .string .string, "parameters") := by
  decide

/-- C6: the check that the wire keys declared in one struct are pairwise distinct fails
on `MachineSpec`, whose two fields both carry the key `source`, and on no other
declared struct. -/
theorem C6_wire_key_collision :
    Decl.MachineSpec.wireKeysDistinct = false ∧
    (Decl.MachineSpec.fields.map (fun f => (f.goName, f.jsonName))
      = [("Name", "source"), ("Arch", "source")]) ∧
    Decl.Machine.wireKeysDistinct = true ∧
    Decl.MachineStatus.wireKeysDistinct = true ∧
    Decl.MachineList.wireKeysDistinct = true ∧
    Decl.MachineGroup.wireKeysDistinct = true ∧
    Decl.MachineGroupList.wireKeysDistinct = true ∧
    Decl.all.filter (fun d => !d.wireKeysDistinct) = [Decl.MachineSpec] := by
  decide

/-- C7 as stated fails: `MachineSpec.Name` carries neither a `+optional` marker nor
`omitempty`, so it is declared required, not optional. -/
theorem C7_spec_name_counterexample :
    Decl.MachineSpec.optional? "Name" = some false ∧
      Decl.MachineSpec.optional? "Name" ≠ some true := by
  decide

/-- C7 (as amended): `MachineSpec.Name` and `MachineSpec.Arch` are declared required;
`MachineStatus.UpdateTime`, `MachineStatus.ReadyToUse`, `MachineGroup.Parameters` and
`Machine.Status` are declared optional; `MachineGroup.Name` and `Machine.Spec` are
declared required. -/
theorem C7_declared_optional :
    Decl.MachineSpec.optional? "Name" = some false ∧
    Decl.MachineSpec.optional? "Arch" = some false ∧
    Decl.MachineStatus.optional? "UpdateTime" = some true ∧
    Decl.MachineStatus.optional? "ReadyToUse" = some true ∧
    Decl.MachineGroup.optional? "Parameters" = some true ∧
    Decl.MachineGroup.optional? "Name" = some false ∧
    Decl.Machine.optional? "Spec" = some false ∧
    Decl.Machine.optional? "Status" = some true := by
  decide

/-- C8 as stated fails when the `UpdateTime` cannot be read back: over the instance `Rfc`,
a `MachineStatus` with the `UpdateTime` of a five-digit year and `ReadyToUse` set to
`true` is decoded with `ReadyToUse` unset, because `creationTime` is decoded first,
`Time.UnmarshalJSON` returns an error on it and the decoding stops there. -/
theorem C8_stopped_counterexample :
    (marshalMachineStatus Rfc ⟨some "10000-01-01T00:00:00Z", some true⟩).keys
        = ["creationTime", "readyToUse"] ∧
      (unmarshalMachineStatus Rfc
        (marshalMachineStatus Rfc ⟨some "10000-01-01T00:00:00Z", some true⟩)
        (MachineStatus.zero Rfc)).val.ReadyToUse = none ∧
      (unmarshalMachineStatus Rfc
        (marshalMachineStatus Rfc ⟨some "10000-01-01T00:00:00Z", some true⟩)
        (MachineStatus.zero Rfc)).val.ReadyToUse ≠
        (⟨some "10000-01-01T00:00:00Z", some true⟩ : MachineStatus Rfc).ReadyToUse ∧
      (unmarshalMachineStatus Rfc
        (marshalMachineStatus Rfc ⟨some "10000-01-01T00:00:00Z", some true⟩)
        (MachineStatus.zero Rfc)).err = .abort := by
  decide

/-- C8 (as amended): `ReadyToUse` has three states on the wire. The encoding of a
`MachineStatus` has the key `readyToUse` exactly when `ReadyToUse` is set; with the same
`UpdateTime`, the
encodings for unset, `false` and `true` are pairwise different; when decoding the
encoding is not stopped by an error of `Time.UnmarshalJSON`, the decoded `ReadyToUse` is
the original one; and the decoding is not stopped when the imported types accept their
own encodings. -/
theorem C8_readyToUse_three_states (K : MetaV1) (s : MachineStatus K) :
    ("readyToUse" ∈ (marshalMachineStatus K s).keys ↔ s.ReadyToUse ≠ none) ∧
    (marshalMachineStatus K ⟨s.UpdateTime, none⟩ ≠
      marshalMachineStatus K ⟨s.UpdateTime, some false⟩) ∧
    (marshalMachineStatus K ⟨s.UpdateTime, none⟩ ≠
      marshalMachineStatus K ⟨s.UpdateTime, some true⟩) ∧
    (marshalMachineStatus K ⟨s.UpdateTime, some false⟩ ≠
      marshalMachineStatus K ⟨s.UpdateTime, some true⟩) ∧
    ((unmarshalMachineStatus K (marshalMachineStatus K s) (MachineStatus.zero K)).err
        ≠ .abort →
      (unmarshalMachineStatus K (marshalMachineStatus K s)
        (MachineStatus.zero K)).val.ReadyToUse = s.ReadyToUse) ∧
    (K.AcceptsOwn →
      (unmarshalMachineStatus K (marshalMachineStatus K s) (MachineStatus.zero K)).err
        ≠ .abort) := by
  obtain ⟨u, r⟩ := s
  refine ⟨?_, ?_, ?_, ?_, roundtrip_MachineStatus_aux K ⟨u, r⟩,
    fun hK => unmarshalMachineStatus_ne_abort K hK ⟨u, r⟩ _⟩
  · rw [marshalMachineStatus_eq]
    cases u <;> cases r <;> simp [Json.keys]
  · intro h
    rw [marshalMachineStatus_eq, marshalMachineStatus_eq] at h
    cases u <;> simp at h
  · intro h
    rw [marshalMachineStatus_eq, marshalMachineStatus_eq] at h
    cases u <;> simp at h
  · intro h
    rw [marshalMachineStatus_eq, marshalMachineStatus_eq] at h
    cases u <;> simp at h

/-- C8, witness: the three states next to a set `UpdateTime`, over the small instance. -/
theorem C8_readyToUse_three_states_witness :
    (unmarshalMachineStatus Mini (marshalMachineStatus Mini ⟨some "t", none⟩)
        (MachineStatus.zero Mini)).val.ReadyToUse = none ∧
      (unmarshalMachineStatus Mini (marshalMachineStatus Mini ⟨some "t", some false⟩)
        (MachineStatus.zero Mini)).val.ReadyToUse = some false ∧
      (unmarshalMachineStatus Mini (marshalMachineStatus Mini ⟨some "t", some true⟩)
        (MachineStatus.zero Mini)).val.ReadyToUse = some true ∧
      (unmarshalMachineStatus Mini (marshalMachineStatus Mini ⟨some "t", some true⟩)
        (MachineStatus.zero Mini)).err ≠ .abort :=
  ⟨(C8_readyToUse_three_states Mini ⟨some "t", none⟩).2.2.2.2.1 (by decide),
    (C8_readyToUse_three_states Mini ⟨some "t", some false⟩).2.2.2.2.1 (by decide),
    (C8_readyToUse_three_states Mini ⟨some "t", some true⟩).2.2.2.2.1 (by decide),
    (C8_readyToUse_three_states Mini ⟨some "t", some true⟩).2.2.2.2.2 Mini_acceptsOwn⟩

/-- C9: `Spec.Name` and `Spec.Arch` take no part in the wire form. Two machines that
differ only in their `Spec` have the same encoding, and decoding any JSON value into a
zero `Machine` leaves both `Spec.Name` and `Spec.Arch` unset. -/
theorem C9_spec_not_on_the_wire (K : MetaV1) :
    (∀ (t : K.TypeMeta) (o : K.ObjectMeta) (s1 s2 : MachineSpec)
        (st : Option (MachineStatus K)),
      marshalMachine K ⟨t, o, s1, st⟩ = marshalMachine K ⟨t, o, s2, st⟩) ∧
    (∀ j : Json,
      (unmarshalMachine K j (Machine.zero K)).val.Spec.Name = none ∧
        (unmarshalMachine K j (Machine.zero K)).val.Spec.Arch = none) := by
  refine ⟨marshalMachine_spec K, ?_⟩
  intro j
  rw [unmarshalMachine_spec]
  exact ⟨rfl, rfl⟩

/-- C10, at the failing markers: the printer columns `Name`, `Arch` and `UpdateTime` of
`Machine` do not address a field of the wire form, whatever the imported structs
declare: `MachineSpec` has no wire key `Name` or `Arch`, `MachineStatus` none
`UpdateTime`. -/
theorem C10_print_columns_unresolved (ext : List StructDecl) :
    fieldAt ext (.named "" "Machine") ["spec", "Name"] = none ∧
    fieldAt ext (.named "" "Machine") ["spec", "Arch"] = none ∧
    fieldAt ext (.named "" "Machine") ["status", "UpdateTime"] = none ∧
    (Decl.Machine.printColumns.take 3).map (columnOK ext) = [false, false, false] ∧
    columnTypeAgrees "boolean" (.ptr .string) = false := by
  refine ⟨rfl, rfl, rfl, rfl, rfl⟩

end K8sCrd
